import Mathlib

/-!
Verification development for the Pebbles event-sourced issue tracker
(internal/pebbles).  Go strings are modelled as lists of characters
(UTF-8 byte order and Unicode code-point order agree, so character-wise
operations are faithful for the string operations used here), SQLite
tables as Lean lists with the relevant SQL statements modelled row-wise,
and fallible Go functions as values in the Except monad.
-/

namespace Pebbles

/-- Model of a Go string as a list of characters. -/
abbrev GoStr := List Char

/-- Abbreviation turning a Lean string literal into a GoStr. -/
def gs (s : String) : GoStr := s.toList

/-- Characters trimmed by strings.TrimSpace.  Go trims every Unicode
white-space character; the ids and payload values of this repository are
ASCII, where the set below is exactly Go's. -/
def isSpaceChar (c : Char) : Bool :=
  c = ' ' || c = '\t' || c = '\n' || c = '\r' || c = '\x0b' || c = '\x0c'

/-- Model of strings.TrimSpace: drop white space from both ends. -/
def trimSpace (s : GoStr) : GoStr :=
  ((s.dropWhile isSpaceChar).reverse.dropWhile isSpaceChar).reverse

/-- Numeric value of a list of decimal digit characters, most significant
first (the accumulator loop used by strconv's digit scan). -/
def decDigitsVal (ds : GoStr) : Nat :=
  ds.foldl (fun acc c => acc * 10 + (c.toNat - 48)) 0

/-- Model of strconv.Atoi (equivalently strconv.ParseInt with base 10 and
the platform int size, 64 bits): an optional sign followed by one or more
decimal digits, rejected when the value overflows the signed 64-bit
range.  Returns none exactly when Go returns a non-nil error. -/
def atoi (s : GoStr) : Option Int :=
  match s with
  | [] => none
  | c :: rest =>
    let neg := c = '-'
    let ds := if c = '-' || c = '+' then rest else c :: rest
    if ds = [] then none
    else if ds.all Char.isDigit then
      let v := decDigitsVal ds
      if neg then
        if v ≤ 2 ^ 63 then some (-(v : Int)) else none
      else
        if v < 2 ^ 63 then some (v : Int) else none
    else none

/-- The fallback priority DefaultPriority from format.go. -/
def DefaultPriority : Int := 2

/-- Model of ParsePriority from format.go: upper-case and trim the input,
accept the empty string as the default priority, strip a leading P, then
parse with strconv.Atoi and require the range 0..4. -/
def ParsePriority (input : GoStr) : Except String Int :=
  let trimmed := trimSpace (input.map Char.toUpper)
  if trimmed = [] then .ok DefaultPriority
  else
    let stripped := if trimmed.head? = some 'P' then trimmed.tail else trimmed
    match atoi stripped with
    | none => .error r"invalid priority"
    | some value =>
      if value < 0 || 4 < value then .error r"priority must be P0-P4"
      else .ok value

/-- Model of the unexported parsePriority from format.go: defaults missing
or invalid values to DefaultPriority. -/
def parsePriority (input : GoStr) : Int :=
  match ParsePriority input with
  | .ok v => v
  | .error _ => DefaultPriority

/-- Status constant "open". -/
def StatusOpen : GoStr := gs r"open"

/-- Status constant "in_progress". -/
def StatusInProgress : GoStr := gs r"in_progress"

/-- Status constant "closed". -/
def StatusClosed : GoStr := gs r"closed"

/-- Dependency type constant "blocks". -/
def DepTypeBlocks : GoStr := gs r"blocks"

/-- Dependency type constant "parent-child". -/
def DepTypeParentChild : GoStr := gs r"parent-child"

/-- Model of NormalizeDepType from hierarchy.go: empty or blank dependency
types default to blocks. -/
def NormalizeDepType (depType : GoStr) : GoStr :=
  let trimmed := trimSpace depType
  if trimmed = [] then DepTypeBlocks else trimmed

/-- Model of the Event struct from types.go.  The payload map is modelled
as an association list; the projection engine only reads it through keyed
lookups, so the (unspecified) Go map iteration order is immaterial. -/
structure Event where
  type : GoStr
  timestamp : GoStr
  issueID : GoStr
  payload : List (GoStr × GoStr)
deriving DecidableEq

/-- Model of the Issue row of the issues table. -/
structure Issue where
  id : GoStr
  title : GoStr
  description : GoStr
  issueType : GoStr
  status : GoStr
  priority : Int
  createdAt : GoStr
  updatedAt : GoStr
  closedAt : GoStr
deriving DecidableEq

/-- Model of a row of the deps table. -/
structure Dep where
  issueID : GoStr
  dependsOnID : GoStr
  depType : GoStr
deriving DecidableEq

/-- Model of the SQLite cache: the issues, deps and renames tables, each
as a list of rows in insertion order.  issues.id and renames.old_id are
primary keys, enforced by the modelled INSERT statements. -/
structure Cache where
  issues : List Issue
  deps : List Dep
  renames : List (GoStr × GoStr)
deriving DecidableEq

deriving instance DecidableEq for Except

/-- The empty cache produced by recreating the schema. -/
def emptyCache : Cache := ⟨[], [], []⟩

/-- Go map read m[k] without the ok flag: the zero value (empty string)
when the key is absent. -/
def payloadGet (p : List (GoStr × GoStr)) (k : GoStr) : GoStr :=
  ((p.find? (fun kv => kv.1 = k)).map (fun kv => kv.2)).getD []

/-- Go map read with the ok flag: v, ok := m[k]. -/
def payloadFind (p : List (GoStr × GoStr)) (k : GoStr) : Option GoStr :=
  (p.find? (fun kv => kv.1 = k)).map (fun kv => kv.2)

/-- Model of lookupRename from renames.go: SELECT new_id FROM renames
WHERE old_id = ?, with sql.ErrNoRows mapped to the empty string.  old_id
is the primary key, so the first matching row is the only one. -/
def lookupRename (renames : List (GoStr × GoStr)) (id : GoStr) : GoStr :=
  ((renames.find? (fun r => r.1 = id)).map (fun r => r.2)).getD []

/-- Number of rename keys not yet visited; the termination measure of the
resolve loop. -/
def unvisitedKeys (renames : List (GoStr × GoStr)) (visited : List GoStr) : Nat :=
  ((renames.map Prod.fst).filter (fun k => decide (k ∉ visited))).length

theorem length_filter_lt_of_mem {α : Type} (l : List α) (p q : α → Bool)
    (himp : ∀ a, q a = true → p a = true) (x : α) (hx : x ∈ l)
    (hpx : p x = true) (hqx : q x = false) :
    (l.filter q).length < (l.filter p).length := by
  induction l with
  | nil => cases hx
  | cons y ys ih =>
    rcases List.mem_cons.mp hx with h | h
    · subst h
      simp only [List.filter, hpx, hqx]
      have hsub : (ys.filter q).length ≤ (ys.filter p).length :=
        List.Sublist.length_le
          (List.monotone_filter_right ys (fun a ha => himp a ha))
      simpa using Nat.lt_succ_of_le hsub
    · by_cases hqy : q y = true
      · have hpy : p y = true := himp y hqy
        simp only [List.filter, hqy, hpy]
        simpa using ih h
      · have hqy' : q y = false := by
          cases hq : q y
          · rfl
          · exact absurd hq hqy
        simp only [List.filter, hqy']
        cases hpy : p y
        · exact ih h
        · simp only [List.length_cons]
          exact Nat.lt_succ_of_lt (ih h)

/-- Key membership from a successful rename lookup. -/
theorem mem_keys_of_lookupRename_ne (renames : List (GoStr × GoStr)) (id : GoStr)
    (h : lookupRename renames id ≠ []) : id ∈ renames.map Prod.fst := by
  unfold lookupRename at h
  cases hf : renames.find? (fun r => r.1 = id) with
  | none => rw [hf] at h; simp at h
  | some pr =>
    have hmem := List.mem_of_find?_eq_some hf
    have hkey := List.find?_some hf
    have : pr.1 = id := by simpa using hkey
    exact this ▸ List.mem_map_of_mem Prod.fst hmem

/-- Model of the loop body of resolveIssueID from renames.go: follow
rename mappings, guarding against cycles with a visited list. -/
def resolveLoop (renames : List (GoStr × GoStr)) (visited : List GoStr)
    (current : GoStr) : Except String GoStr :=
  if current ∈ visited then .error r"rename cycle detected"
  else
    let nxt := lookupRename renames current
    if h : nxt = [] then .ok current
    else resolveLoop renames (current :: visited) nxt
termination_by unvisitedKeys renames visited
decreasing_by
  simp only [unvisitedKeys]
  refine length_filter_lt_of_mem _ _ _ ?_ current ?_ ?_ ?_
  · intro a ha
    simp only [decide_eq_true_eq] at ha ⊢
    intro hmem
    exact ha (List.mem_cons_of_mem _ hmem)
  · exact mem_keys_of_lookupRename_ne renames current h
  · simpa using by assumption
  · simp

/-- Model of resolveIssueID from renames.go: trim the input, reject empty
ids, then follow rename mappings to the current id. -/
def resolveIssueID (renames : List (GoStr × GoStr)) (id : GoStr) :
    Except String GoStr :=
  let current := trimSpace id
  if current = [] then .error r"issue id is required"
  else resolveLoop renames [] current

/-- Model of issueExists from renames.go: SELECT COUNT(1) FROM issues
WHERE id = ?. -/
def issueExistsB (c : Cache) (id : GoStr) : Bool :=
  c.issues.any (fun i => i.id = id)

/-- Model of ensureIssueExists from db_apply.go. -/
def ensureIssueExists (c : Cache) (id : GoStr) : Except String Unit :=
  if issueExistsB c id then .ok () else .error r"missing issue"

/-- Model of ensureIssueMissing from renames.go. -/
def ensureIssueMissing (c : Cache) (id : GoStr) : Except String Unit :=
  if issueExistsB c id then .error r"issue already exists" else .ok ()

/-- Event type tag "create". -/
def EventTypeCreate : GoStr := gs r"create"

/-- Event type tag "rename". -/
def EventTypeRename : GoStr := gs r"rename"

/-- Event type tag "status_update". -/
def EventTypeStatus : GoStr := gs r"status_update"

/-- Event type tag "update". -/
def EventTypeUpdate : GoStr := gs r"update"

/-- Event type tag "close". -/
def EventTypeClose : GoStr := gs r"close"

/-- Event type tag "comment". -/
def EventTypeComment : GoStr := gs r"comment"

/-- Event type tag "dep_add". -/
def EventTypeDepAdd : GoStr := gs r"dep_add"

/-- Event type tag "dep_rm". -/
def EventTypeDepRemove : GoStr := gs r"dep_rm"

/-- Model of resolveEventIssueID from db_apply.go: a copy of the event
with the issue id resolved through the rename table. -/
def resolveEventIssueID (c : Cache) (ev : Event) : Except String Event :=
  match resolveIssueID c.renames ev.issueID with
  | .error e => .error e
  | .ok resolvedID => .ok { ev with issueID := resolvedID }

/-- Model of resolveEventDependencyIDs from db_apply.go: resolve the
issue id and the depends_on target, normalize the dep type, and rewrite
the payload to exactly those two keys. -/
def resolveEventDependencyIDs (c : Cache) (ev : Event) : Except String Event :=
  match resolveIssueID c.renames ev.issueID with
  | .error e => .error e
  | .ok resolvedIssueID =>
    let dependsOn := payloadGet ev.payload (gs r"depends_on")
    if dependsOn = [] then .error r"dependency event missing depends_on"
    else
      let depType := NormalizeDepType (payloadGet ev.payload (gs r"dep_type"))
      match resolveIssueID c.renames dependsOn with
      | .error e => .error e
      | .ok resolvedDependsOn =>
        .ok { ev with
              issueID := resolvedIssueID,
              payload := [(gs r"depends_on", resolvedDependsOn),
                          (gs r"dep_type", depType)] }

/-- Model of applyCreate from db_apply.go.  The INSERT INTO issues has no
OR IGNORE clause and id is the table's primary key, so SQLite rejects a
second row with the same id and the handler returns that error. -/
def applyCreate (c : Cache) (ev : Event) : Except String Cache :=
  let title := payloadGet ev.payload (gs r"title")
  if title = [] then .error r"create event missing title"
  else
    let description := payloadGet ev.payload (gs r"description")
    let issueType0 := payloadGet ev.payload (gs r"type")
    let issueType := if issueType0 = [] then gs r"task" else issueType0
    let priority := parsePriority (payloadGet ev.payload (gs r"priority"))
    if issueExistsB c ev.issueID then
      .error r"insert issue: UNIQUE constraint failed: issues.id"
    else
      .ok { c with issues := c.issues ++
        [{ id := ev.issueID, title := title, description := description,
           issueType := issueType, status := StatusOpen, priority := priority,
           createdAt := ev.timestamp, updatedAt := ev.timestamp, closedAt := [] }] }

/-- Model of updateIssueID from db_apply.go: UPDATE issues SET id, updated_at
WHERE id = old, failing when no row matched. -/
def updateIssueID (rows : List Issue) (oldID newID ts : GoStr) :
    Except String (List Issue) :=
  if (rows.filter (fun i => decide (i.id = oldID))).length = 0 then
    .error r"rename for missing issue"
  else
    .ok (rows.map fun i =>
      if i.id = oldID then { i with id := newID, updatedAt := ts } else i)

/-- Model of updateDepsForRename from db_apply.go: two UPDATEs rewriting
issue_id and then depends_on_id from the old id to the new id. -/
def updateDepsForRename (deps : List Dep) (oldID newID : GoStr) : List Dep :=
  (deps.map fun d =>
    if d.issueID = oldID then { d with issueID := newID } else d).map fun d =>
      if d.dependsOnID = oldID then { d with dependsOnID := newID } else d

/-- Model of upsertRename from db_apply.go: INSERT OR REPLACE INTO renames,
old_id being the primary key. -/
def upsertRename (renames : List (GoStr × GoStr)) (oldID newID : GoStr) :
    List (GoStr × GoStr) :=
  renames.filter (fun r => decide (r.1 ≠ oldID)) ++ [(oldID, newID)]

/-- Model of applyRename from db_apply.go: validate the new id, resolve
both ids, require the source row to exist and the target id to be free,
then rewrite the issue row, the dependency rows, and record the mapping. -/
def applyRename (c : Cache) (ev : Event) : Except String Cache :=
  let newID := payloadGet ev.payload (gs r"new_id")
  if newID = [] then .error r"rename event missing new_id"
  else
    match resolveIssueID c.renames ev.issueID with
    | .error e => .error e
    | .ok resolvedOldID =>
      match resolveIssueID c.renames newID with
      | .error e => .error e
      | .ok resolvedNewID =>
        if resolvedNewID ≠ newID then .error r"rename target already mapped"
        else if resolvedOldID = newID then .error r"rename target matches current id"
        else
          match ensureIssueExists c resolvedOldID with
          | .error e => .error e
          | .ok _ =>
            match ensureIssueMissing c newID with
            | .error e => .error e
            | .ok _ =>
              match updateIssueID c.issues resolvedOldID newID ev.timestamp with
              | .error e => .error e
              | .ok issues' =>
                .ok { issues := issues',
                      deps := updateDepsForRename c.deps resolvedOldID newID,
                      renames := upsertRename c.renames resolvedOldID newID }

/-- Model of applyStatus from db_apply.go.  When the new status is closed
the UPDATE sets only status and updated_at (closed_at is left untouched);
otherwise it also clears closed_at to the empty string.  Fails when the
status payload is missing or no issue row matched. -/
def applyStatus (c : Cache) (ev : Event) : Except String Cache :=
  let status := payloadGet ev.payload (gs r"status")
  if status = [] then .error r"status event missing status"
  else
    let matched := (c.issues.filter (fun i => decide (i.id = ev.issueID))).length
    let issues' :=
      if status = StatusClosed then
        c.issues.map fun i =>
          if i.id = ev.issueID then
            { i with status := status, updatedAt := ev.timestamp }
          else i
      else
        c.issues.map fun i =>
          if i.id = ev.issueID then
            { i with status := status, updatedAt := ev.timestamp, closedAt := [] }
          else i
    if matched = 0 then .error r"status update for missing issue"
    else .ok { c with issues := issues' }

/-- Model of applyUpdate from db_apply.go: replace whichever of type,
description and priority are present in the payload (presence, not
non-emptiness, is what counts) and bump updated_at; at least one field is
required and the issue row must exist. -/
def applyUpdate (c : Cache) (ev : Event) : Except String Cache :=
  let tyOpt := payloadFind ev.payload (gs r"type")
  let descOpt := payloadFind ev.payload (gs r"description")
  let prOpt := payloadFind ev.payload (gs r"priority")
  if tyOpt = none && descOpt = none && prOpt = none then
    .error r"update event missing fields"
  else
    let matched := (c.issues.filter (fun i => decide (i.id = ev.issueID))).length
    let issues' := c.issues.map fun i =>
      if i.id = ev.issueID then
        { i with
          issueType := tyOpt.getD i.issueType,
          description := descOpt.getD i.description,
          priority := (prOpt.map parsePriority).getD i.priority,
          updatedAt := ev.timestamp }
      else i
    if matched = 0 then .error r"update for missing issue"
    else .ok { c with issues := issues' }

/-- Model of applyClose from db_apply.go: set status closed and stamp both
updated_at and closed_at with the event timestamp. -/
def applyClose (c : Cache) (ev : Event) : Except String Cache :=
  let matched := (c.issues.filter (fun i => decide (i.id = ev.issueID))).length
  let issues' := c.issues.map fun i =>
    if i.id = ev.issueID then
      { i with status := StatusClosed, updatedAt := ev.timestamp,
               closedAt := ev.timestamp }
    else i
  if matched = 0 then .error r"close for missing issue"
  else .ok { c with issues := issues' }

/-- Model of applyComment from db_apply.go: require a non-blank body and
an existing issue; the cache is not mutated. -/
def applyComment (c : Cache) (ev : Event) : Except String Cache :=
  let body := trimSpace (payloadGet ev.payload (gs r"body"))
  if body = [] then .error r"comment event missing body"
  else
    match ensureIssueExists c ev.issueID with
    | .error e => .error e
    | .ok _ => .ok c

/-- Model of applyDepAdd from db_apply.go: both endpoints must exist; the
INSERT OR IGNORE leaves the table unchanged on a duplicate triple. -/
def applyDepAdd (c : Cache) (ev : Event) : Except String Cache :=
  let dependsOn := payloadGet ev.payload (gs r"depends_on")
  if dependsOn = [] then .error r"dep_add event missing depends_on"
  else
    let depType := NormalizeDepType (payloadGet ev.payload (gs r"dep_type"))
    match ensureIssueExists c ev.issueID with
    | .error e => .error e
    | .ok _ =>
      match ensureIssueExists c dependsOn with
      | .error e => .error e
      | .ok _ =>
        let d : Dep := { issueID := ev.issueID, dependsOnID := dependsOn,
                         depType := depType }
        if c.deps.any (fun x => x = d) then .ok c
        else .ok { c with deps := c.deps ++ [d] }

/-- Model of applyDepRemove from db_apply.go: both endpoints must exist;
DELETE the matching triple (no error when absent). -/
def applyDepRemove (c : Cache) (ev : Event) : Except String Cache :=
  let dependsOn := payloadGet ev.payload (gs r"depends_on")
  if dependsOn = [] then .error r"dep_rm event missing depends_on"
  else
    let depType := NormalizeDepType (payloadGet ev.payload (gs r"dep_type"))
    match ensureIssueExists c ev.issueID with
    | .error e => .error e
    | .ok _ =>
      match ensureIssueExists c dependsOn with
      | .error e => .error e
      | .ok _ =>
        let d : Dep := { issueID := ev.issueID, dependsOnID := dependsOn,
                         depType := depType }
        .ok { c with deps := c.deps.filter (fun x => decide (x ≠ d)) }

/-- Model of applyEvent from db_apply.go: tagged dispatch; non-create,
non-rename events have their ids resolved through the rename table
first; an unknown tag is an error. -/
def applyEvent (c : Cache) (ev : Event) : Except String Cache :=
  if ev.type = EventTypeCreate then applyCreate c ev
  else if ev.type = EventTypeRename then applyRename c ev
  else if ev.type = EventTypeStatus then
    match resolveEventIssueID c ev with
    | .error e => .error e
    | .ok resolved => applyStatus c resolved
  else if ev.type = EventTypeUpdate then
    match resolveEventIssueID c ev with
    | .error e => .error e
    | .ok resolved => applyUpdate c resolved
  else if ev.type = EventTypeClose then
    match resolveEventIssueID c ev with
    | .error e => .error e
    | .ok resolved => applyClose c resolved
  else if ev.type = EventTypeComment then
    match resolveEventIssueID c ev with
    | .error e => .error e
    | .ok resolved => applyComment c resolved
  else if ev.type = EventTypeDepAdd then
    match resolveEventDependencyIDs c ev with
    | .error e => .error e
    | .ok resolved => applyDepAdd c resolved
  else if ev.type = EventTypeDepRemove then
    match resolveEventDependencyIDs c ev with
    | .error e => .error e
    | .ok resolved => applyDepRemove c resolved
  else .error r"unknown event type"

/-- Model of applyEvents from db_apply.go: replay events in order,
stopping at the first error. -/
def applyEvents (c : Cache) : List Event → Except String Cache
  | [] => .ok c
  | ev :: evs =>
    match applyEvent c ev with
    | .error e => .error e
    | .ok c' => applyEvents c' evs

/-- Model of NewCreateEvent from event_build.go. -/
def NewCreateEvent (issueID title description issueType ts : GoStr)
    (priority : Int) : Event :=
  { type := EventTypeCreate, timestamp := ts, issueID := issueID,
    payload := [(gs r"title", title), (gs r"description", description),
                (gs r"type", issueType), (gs r"priority", gs (toString priority))] }

/-- Byte order on Go strings, as used by SQLite's default BINARY collation
in ORDER BY clauses.  UTF-8 byte order coincides with code-point order, so
a character-wise comparison is faithful. -/
def strLt : GoStr → GoStr → Bool
  | [], [] => false
  | [], _ :: _ => true
  | _ :: _, [] => false
  | a :: as, b :: bs => if a < b then true else if b < a then false else strLt as bs

/-- Non-strict byte order on Go strings. -/
def strLe (a b : GoStr) : Bool := !strLt b a

theorem strLt_asymm : ∀ a b : GoStr, strLt a b = true → strLt b a = true → False := by
  intro a
  induction a with
  | nil => intro b h1 h2; cases b <;> simp [strLt] at h1 h2
  | cons x xs ih =>
    intro b h1 h2
    cases b with
    | nil => simp [strLt] at h1
    | cons y ys =>
      simp only [strLt] at h1 h2
      by_cases hxy : x < y
      · have : ¬ y < x := lt_asymm hxy
        simp [hxy, this] at h2
      · by_cases hyx : y < x
        · simp [hxy, hyx] at h1
        · simp [hxy, hyx] at h1 h2
          exact ih ys h1 h2

theorem strLt_eq_of_not : ∀ a b : GoStr, strLt a b = false → strLt b a = false → a = b := by
  intro a
  induction a with
  | nil => intro b h1 _; cases b <;> simp [strLt] at h1 ⊢
  | cons x xs ih =>
    intro b h1 h2
    cases b with
    | nil => simp [strLt] at h2
    | cons y ys =>
      simp only [strLt] at h1 h2
      by_cases hxy : x < y
      · simp [hxy] at h1
      · by_cases hyx : y < x
        · simp [hyx, hxy] at h2
        · rw [if_neg hxy, if_neg hyx] at h1
          rw [if_neg hyx, if_neg hxy] at h2
          have hxy' : x = y := le_antisymm (not_lt.mp hyx) (not_lt.mp hxy)
          rw [hxy', ih ys h1 h2]

theorem strLt_trans : ∀ a b c : GoStr, strLt a b = true → strLt b c = true →
    strLt a c = true := by
  intro a
  induction a with
  | nil =>
    intro b c h1 h2
    cases b with
    | nil => simp [strLt] at h1
    | cons y ys => cases c with
      | nil => simp [strLt] at h2
      | cons z zs => simp [strLt]
  | cons x xs ih =>
    intro b c h1 h2
    cases b with
    | nil => simp [strLt] at h1
    | cons y ys =>
      cases c with
      | nil => simp [strLt] at h2
      | cons z zs =>
        simp only [strLt] at h1 h2 ⊢
        by_cases hxy : x < y
        · by_cases hyz : y < z
          · simp [lt_trans hxy hyz]
          · by_cases hzy : z < y
            · simp [hyz, hzy] at h2
            · have : y = z := le_antisymm (not_lt.mp hzy) (not_lt.mp hyz)
              subst this
              simp [hxy]
        · by_cases hyx : y < x
          · simp [hxy, hyx] at h1
          · have hxy' : x = y := le_antisymm (not_lt.mp hyx) (not_lt.mp hxy)
            subst hxy'
            by_cases hxz : x < z
            · simp [hxz]
            · by_cases hzx : z < x
              · simp [hxz, hzx] at h2
              · rw [if_neg hxy, if_neg hyx] at h1
                rw [if_neg hxz, if_neg hzx] at h2
                rw [if_neg hxz, if_neg hzx]
                exact ih ys zs h1 h2

theorem strLe_total (a b : GoStr) : strLe a b = true ∨ strLe b a = true := by
  unfold strLe
  by_cases h1 : strLt b a = true
  · by_cases h2 : strLt a b = true
    · exact absurd (strLt_asymm a b h2 h1) (fun f => f)
    · right; simp only [Bool.not_eq_true] at h2; simp [h2]
  · left; simp only [Bool.not_eq_true] at h1; simp [h1]

theorem strLe_trans (a b c : GoStr) (h1 : strLe a b = true) (h2 : strLe b c = true) :
    strLe a c = true := by
  unfold strLe at *
  simp only [Bool.not_eq_true'] at h1 h2 ⊢
  by_cases hca : strLt c a = true
  · by_cases hab : strLt a b = true
    · have := strLt_trans c a b hca hab
      rw [this] at h2; cases h2
    · have hab' : strLt a b = false := by simpa using hab
      have : a = b := strLt_eq_of_not a b hab' h1
      subst this
      rw [hca] at h2; cases h2
  · simpa using hca

/-- Restricted form of Sorted.orderedInsert: inserting a with a totality
hypothesis against the list and transitivity through the inserted element
preserves pairwise sortedness. -/
theorem pairwise_orderedInsert (r : α → α → Prop) [DecidableRel r] (a : α) :
    ∀ l : List α, (∀ b ∈ l, r a b ∨ r b a) →
    (∀ b ∈ l, ∀ c ∈ l, r a b → r b c → r a c) →
    l.Pairwise r → (List.orderedInsert r a l).Pairwise r := by
  intro l
  induction l with
  | nil => intro _ _ _; simp
  | cons b bs ih =>
    intro htot htrans hp
    rw [List.pairwise_cons] at hp
    by_cases hab : r a b
    · rw [List.orderedInsert, if_pos hab]
      refine List.pairwise_cons.mpr ⟨?_, List.pairwise_cons.mpr hp⟩
      intro x hx
      rcases List.mem_cons.mp hx with h | h
      · exact h ▸ hab
      · exact htrans b (by simp) x (List.mem_cons_of_mem _ h) hab (hp.1 x h)
    · rw [List.orderedInsert, if_neg hab]
      have hba : r b a := by
        rcases htot b (by simp) with h | h
        · exact absurd h hab
        · exact h
      refine List.pairwise_cons.mpr ⟨?_, ?_⟩
      · intro x hx
        rcases (List.mem_orderedInsert r).mp hx with h | h
        · exact h ▸ hba
        · exact hp.1 x h
      · exact ih (fun x hx => htot x (List.mem_cons_of_mem _ hx))
          (fun x hx y hy => htrans x (List.mem_cons_of_mem _ hx) y (List.mem_cons_of_mem _ hy))
          hp.2

/-- Restricted form of sorted_insertionSort: totality and transitivity are
only required among the elements of the list being sorted. -/
theorem pairwise_insertionSort (r : α → α → Prop) [DecidableRel r] :
    ∀ l : List α, (∀ a ∈ l, ∀ b ∈ l, r a b ∨ r b a) →
    (∀ a ∈ l, ∀ b ∈ l, ∀ c ∈ l, r a b → r b c → r a c) →
    (List.insertionSort r l).Pairwise r := by
  intro l
  induction l with
  | nil => intro _ _; simp
  | cons x xs ih =>
    intro htot htrans
    rw [List.insertionSort]
    have hperm := List.perm_insertionSort r xs
    have hmem : ∀ b ∈ List.insertionSort r xs, b ∈ x :: xs := by
      intro b hb
      exact List.mem_cons_of_mem _ (hperm.mem_iff.mp hb)
    refine pairwise_orderedInsert r x _ ?_ ?_ ?_
    · intro b hb
      exact htot x (by simp) b (hmem b hb)
    · intro b hb c hc h1 h2
      exact htrans x (by simp) b (hmem b hb) c (hmem c hc) h1 h2
    · exact ih (fun a ha b hb => htot a (List.mem_cons_of_mem _ ha) b (List.mem_cons_of_mem _ hb))
        (fun a ha b hb c hc => htrans a (List.mem_cons_of_mem _ ha) b (List.mem_cons_of_mem _ hb)
          c (List.mem_cons_of_mem _ hc))

/-- Model of listIssues from db_query.go: SELECT ... FROM issues ORDER BY
id, realized as a stable sort of the rows by id. -/
def listIssues (c : Cache) : List Issue :=
  List.insertionSort (fun a b : Issue => strLe a.id b.id = true) c.issues

/-- Readiness predicate of the ListReadyIssues query from db_query.go: the
issue is not closed and no blocks edge from it joins to a non-closed
issue row. -/
def isReady (c : Cache) (i : Issue) : Bool :=
  i.status ≠ StatusClosed &&
    !(c.deps.any fun d =>
      d.issueID = i.id && d.depType = DepTypeBlocks &&
        c.issues.any fun j => j.id = d.dependsOnID && j.status ≠ StatusClosed)

/-- Model of ListReadyIssues from db_query.go: the rows satisfying the
readiness predicate, ordered by id. -/
def ListReadyIssues (c : Cache) : List Issue :=
  List.insertionSort (fun a b : Issue => strLe a.id b.id = true)
    (c.issues.filter (isReady c))

/-- Leap year rule of the proleptic Gregorian calendar used by Go's time
package. -/
def isLeapYear (y : Nat) : Bool :=
  (y % 4 = 0 && y % 100 ≠ 0) || y % 400 = 0

/-- Number of days in a month. -/
def daysInMonth (y m : Nat) : Nat :=
  if m = 2 then (if isLeapYear y then 29 else 28)
  else if m = 4 || m = 6 || m = 9 || m = 11 then 30
  else 31

/-- Days in the months of year y strictly before month m. -/
def daysBeforeMonth (y m : Nat) : Nat :=
  (List.range (m - 1)).foldl (fun acc i => acc + daysInMonth y (i + 1)) 0

/-- Days in the years strictly before year y (year 1 based). -/
def daysBeforeYear (y : Nat) : Nat :=
  365 * (y - 1) + (y - 1) / 4 - (y - 1) / 100 + (y - 1) / 400

/-- Fractional-second suffix: an optional dot followed by up to nine
digits, yielding nanoseconds and the unconsumed remainder. -/
def parseFrac : GoStr → Option (Nat × GoStr)
  | '.' :: rest =>
    let ds := rest.takeWhile Char.isDigit
    let rest' := rest.dropWhile Char.isDigit
    if ds = [] || 9 < ds.length then none
    else some (decDigitsVal ds * 10 ^ (9 - ds.length), rest')
  | rest => some (0, rest)

/-- Model of the Go standard library call time.Parse with layout
time.RFC3339Nano, restricted to UTC timestamps that end in Z — the only
form this repository emits (NowTimestamp formats UTC); numeric-offset
forms are not modelled.  Field ranges are validated as Go does (month
1..12, day within the month, hour to 23, minute and second to 59).  The
result is the instant as nanoseconds on a linear time scale, so Before
and Equal on Go times coincide with lt and eq on the returned value. -/
def parseRFC3339 (s : GoStr) : Option Nat :=
  match s with
  | y1 :: y2 :: y3 :: y4 :: '-' :: mo1 :: mo2 :: '-' :: d1 :: d2 :: 'T' ::
      h1 :: h2 :: ':' :: mi1 :: mi2 :: ':' :: s1 :: s2 :: rest =>
    if [y1, y2, y3, y4, mo1, mo2, d1, d2, h1, h2, mi1, mi2, s1, s2].all Char.isDigit then
      let y := decDigitsVal [y1, y2, y3, y4]
      let mo := decDigitsVal [mo1, mo2]
      let d := decDigitsVal [d1, d2]
      let h := decDigitsVal [h1, h2]
      let mi := decDigitsVal [mi1, mi2]
      let sec := decDigitsVal [s1, s2]
      match parseFrac rest with
      | some (nanos, ['Z']) =>
        if 1 ≤ mo && mo ≤ 12 && 1 ≤ d && d ≤ daysInMonth y mo &&
            h ≤ 23 && mi ≤ 59 && sec ≤ 59 then
          some (((((daysBeforeYear y + daysBeforeMonth y mo + (d - 1)) * 24 + h) *
            60 + mi) * 60 + sec) * 1000000000 + nanos)
        else none
      | _ => none
    else none
  | _ => none

/-- The comparison closure passed to sort.SliceStable in sortEvents from
cache.go, over (file index, event) pairs: when both timestamps parse and
differ, compare instants; otherwise compare original file indices. -/
def eventLess (a b : Nat × Event) : Bool :=
  match parseRFC3339 a.2.timestamp, parseRFC3339 b.2.timestamp with
  | some ta, some tb => if ta = tb then decide (a.1 < b.1) else decide (ta < tb)
  | _, _ => decide (a.1 < b.1)

/-- The matching non-strict comparison: a sorts no later than b exactly
when b is not strictly less than a. -/
def eventLe (a b : Nat × Event) : Bool := !eventLess b a

/-- Model of sortEvents from cache.go: pair each event with its original
index, stable-sort by the closure above, and drop the indices.
sort.SliceStable is modelled as insertion sort: both are stable, and a
stable sort's output is unique whenever the comparison is a strict weak
order, which holds on every list whose timestamps all parse. -/
def sortEvents (events : List Event) : List Event :=
  (List.insertionSort (fun a b => eventLe a b = true) events.enum).map Prod.snd

/-- Model of HasParentChildSuffix from child_ids.go: the candidate starts
with the parent id followed by a dot, and the remainder is non-empty and
accepted by strconv.Atoi. -/
def HasParentChildSuffix (parentID childID : GoStr) : Bool :=
  let pfx := parentID ++ ['.']
  if pfx.isPrefixOf childID then
    let sfx := childID.drop pfx.length
    decide (sfx ≠ []) && (atoi sfx).isSome
  else false

/-- Model of loadChildSuffixes from child_ids.go: positive Atoi values of
the suffixes of parent-child children of the resolved parent.  The SQL
ORDER BY only affects enumeration order of a set that is consumed as a
membership test, so it is not modelled. -/
def loadChildSuffixes (c : Cache) (parentID : GoStr) : List Int :=
  (c.deps.filter fun d =>
    d.depType = DepTypeParentChild && d.dependsOnID = parentID).filterMap fun d =>
      let pfx := parentID ++ ['.']
      if pfx.isPrefixOf d.issueID then
        match atoi (d.issueID.drop pfx.length) with
        | some v => if 0 < v then some v else none
        | none => none
      else none

/-- Model of issueIDAvailable from child_ids.go: available when the id
resolves to itself and no issue row carries it. -/
def issueIDAvailable (c : Cache) (id : GoStr) : Except String Bool :=
  match resolveIssueID c.renames id with
  | .error e => .error e
  | .ok resolved =>
    if resolved ≠ id then .ok false
    else .ok (!(issueExistsB c id))

/-- Decimal rendering of a natural number, most significant digit first
(the digits fmt.Sprintf with verb d prints for a non-negative int). -/
def natToDec (n : Nat) : GoStr :=
  if h : n < 10 then [Char.ofNat (48 + n)]
  else natToDec (n / 10) ++ [Char.ofNat (48 + n % 10)]
termination_by n
decreasing_by
  exact Nat.div_lt_self (Nat.lt_of_lt_of_le (by decide) (Nat.le_of_not_lt h)) (by decide)

/-- Fuel-indexed model of the unbounded search loop of NextChildIssueID
from child_ids.go; none means the loop has not returned within the given
number of iterations, so loop termination is stated as the existence of
sufficient fuel.  The write marking an unavailable suffix as used is dead
code (the loop never revisits a suffix) and is omitted. -/
def nextChildLoop (c : Cache) (resolvedParent : GoStr) (used : List Int) :
    Nat → Nat → Option (Except String GoStr)
  | 0, _ => none
  | fuel + 1, sfx =>
    if (sfx : Int) ∈ used then nextChildLoop c resolvedParent used fuel (sfx + 1)
    else
      let candidate := resolvedParent ++ '.' :: natToDec sfx
      match issueIDAvailable c candidate with
      | .error e => some (.error e)
      | .ok true => some (.ok candidate)
      | .ok false => nextChildLoop c resolvedParent used fuel (sfx + 1)

/-- Model of NextChildIssueID from child_ids.go: resolve and validate the
parent, collect the used child suffixes, then search suffixes from 1
upward (the cache-freshness and database-opening steps are I/O plumbing
outside the model). -/
def NextChildIssueID (fuel : Nat) (c : Cache) (parentID : GoStr) :
    Option (Except String GoStr) :=
  match resolveIssueID c.renames parentID with
  | .error e => some (.error e)
  | .ok resolvedParent =>
    match ensureIssueExists c resolvedParent with
    | .error e => some (.error e)
    | .ok _ =>
      nextChildLoop c resolvedParent (loadChildSuffixes c resolvedParent) fuel 1

/-- Model of issueIDFromHash from id.go: prefix, dash, and the first
length characters of the hash. -/
def issueIDFromHash (pfx hash : GoStr) (length : Nat) : GoStr :=
  pfx ++ '-' :: hash.take length

/-- The collision-expansion loop of GenerateUniqueIssueID from id.go,
structurally recursive in the remaining suffix lengths. -/
def genUniqueLoop (pfx hash : GoStr) (ex : GoStr → Except String Bool)
    (length : Nat) : Except String GoStr :=
  if length ≤ hash.length then
    match ex (issueIDFromHash pfx hash length) with
    | .error e => .error e
    | .ok true => genUniqueLoop pfx hash ex (length + 1)
    | .ok false => .ok (issueIDFromHash pfx hash length)
  else .error r"issue id collision"
termination_by hash.length + 1 - length

/-- Model of GenerateUniqueIssueID from id.go.  The hash argument stands
for issueIDHash, the hex-encoded SHA-256 digest of
prefix:timestamp:title:host computed by the external standard library
(crypto/sha256 and encoding/hex, 64 lowercase hex characters); the loop
below only inspects its prefixes.  Suffix lengths are tried from
defaultIssueIDSuffixLength = 3 up to the digest length. -/
def GenerateUniqueIssueID (pfx hash : GoStr) (ex : GoStr → Except String Bool) :
    Except String GoStr :=
  genUniqueLoop pfx hash ex 3

/-- The two create events of TestRebuildCacheIgnoresDuplicateCreateEvents
from cache_test.go: same issue id, one second apart. -/
def evDupeA : Event :=
  NewCreateEvent (gs r"pb-dupe") (gs r"First") [] (gs r"task")
    (gs r"2024-01-01T00:00:00Z") 2

/-- The duplicate create event appended second in that test. -/
def evDupeB : Event :=
  NewCreateEvent (gs r"pb-dupe") (gs r"First") [] (gs r"task")
    (gs r"2024-01-01T00:00:01Z") 2

/-- The single issue row produced by the first create event alone. -/
def issueDupe : Issue :=
  { id := gs r"pb-dupe", title := gs r"First", description := [],
    issueType := gs r"task", status := StatusOpen, priority := 2,
    createdAt := gs r"2024-01-01T00:00:00Z",
    updatedAt := gs r"2024-01-01T00:00:00Z", closedAt := [] }

/-- Claim C1 — evaluation of the projection at the failing input.  The
claim (and TestRebuildCacheIgnoresDuplicateCreateEvents) say a duplicate
create is silently ignored and the rebuild yields one issue row, but
applyCreate issues a plain INSERT against the issues table whose id
column is the primary key, so replaying the two create events of the test
aborts with a constraint error instead: the first create alone succeeds
with one row, and the pair fails. -/
theorem C1_duplicate_create_aborts_rebuild :
    applyEvents emptyCache [evDupeA] = .ok { emptyCache with issues := [issueDupe] } ∧
    applyEvents emptyCache [evDupeA, evDupeB] =
      .error r"insert issue: UNIQUE constraint failed: issues.id" := by
  exact ⟨rfl, rfl⟩

/-- An open issue used by the C3 counterexample. -/
def issueC3 : Issue :=
  { id := gs r"pb-a", title := gs r"t", description := [],
    issueType := gs r"task", status := StatusOpen, priority := 2,
    createdAt := gs r"2024-01-01T00:00:00Z",
    updatedAt := gs r"2024-01-01T00:00:00Z", closedAt := [] }

/-- A cache holding just that issue. -/
def cacheC3 : Cache := { issues := [issueC3], deps := [], renames := [] }

/-- A status_update event moving the issue to closed. -/
def evC3close : Event :=
  { type := EventTypeStatus, timestamp := gs r"2024-01-02T00:00:00Z",
    issueID := gs r"pb-a", payload := [(gs r"status", StatusClosed)] }

/-- The row after the status_update to closed: status and updated_at
changed, closed_at still empty. -/
def issueC3closed : Issue :=
  { issueC3 with status := StatusClosed, updatedAt := gs r"2024-01-02T00:00:00Z" }

/-- Claim C3 — counterexample.  Applying a status_update to closed on an
open issue succeeds but leaves closed_at at the empty string: the result
row's closed_at is empty even though the event carries a non-empty
timestamp, so the handler does not set closed_at when the new status is
closed. -/
theorem C3_counterexample_status_closed_leaves_closed_at_empty :
    applyStatus cacheC3 evC3close = .ok { cacheC3 with issues := [issueC3closed] } ∧
    issueC3closed.closedAt = [] ∧ evC3close.timestamp ≠ [] := by
  refine ⟨rfl, rfl, by decide⟩

/-- Claim C3 (amended): for every existing issue, applyStatus sets the
issue's status and updated_at; when the new status is not closed it
clears closed_at to the empty string, and when the new status is closed
it leaves closed_at unchanged (it does not set it). -/
theorem C3_applyStatus_updates_status_and_closed_at :
    ∀ (c : Cache) (ev : Event),
      payloadGet ev.payload (gs r"status") ≠ [] →
      (∃ i ∈ c.issues, i.id = ev.issueID) →
      applyStatus c ev = .ok { c with issues := c.issues.map fun i =>
        if i.id = ev.issueID then
          { i with status := payloadGet ev.payload (gs r"status"),
                   updatedAt := ev.timestamp,
                   closedAt :=
                     if payloadGet ev.payload (gs r"status") = StatusClosed
                     then i.closedAt else [] }
        else i } := by
  intro c ev h1 h2
  have hm : ¬ (c.issues.filter (fun i => decide (i.id = ev.issueID))).length = 0 := by
    obtain ⟨i, hi, hid⟩ := h2
    have hmem : i ∈ c.issues.filter (fun i => decide (i.id = ev.issueID)) :=
      List.mem_filter.mpr ⟨hi, by simpa using hid⟩
    have := List.length_pos.mpr (List.ne_nil_of_mem hmem)
    omega
  simp only [applyStatus, if_neg h1, if_neg hm]
  by_cases hs : payloadGet ev.payload (gs r"status") = StatusClosed
  · simp only [if_pos hs]
  · simp only [if_neg hs]

/-- The closed row before the C3 witness reopens it. -/
def issueC3closedAt : Issue :=
  { issueC3 with status := StatusClosed, closedAt := gs r"2024-01-02T00:00:00Z" }

/-- A status_update event reopening the issue. -/
def evC3reopen : Event :=
  { type := EventTypeStatus, timestamp := gs r"2024-01-03T00:00:00Z",
    issueID := gs r"pb-a", payload := [(gs r"status", StatusOpen)] }

/-- The reopened row: status open, closed_at cleared. -/
def issueC3reopened : Issue :=
  { issueC3 with
    status := StatusOpen, updatedAt := gs r"2024-01-03T00:00:00Z", closedAt := [] }

/-- Claim C3 — witness instantiating the amended theorem on a concrete
cache: reopening clears closed_at. -/
theorem C3_witness :
    applyStatus { cacheC3 with issues := [issueC3closedAt] } evC3reopen =
      .ok { cacheC3 with issues := [issueC3reopened] } := by
  have h := C3_applyStatus_updates_status_and_closed_at
    { cacheC3 with issues := [issueC3closedAt] } evC3reopen
    (by decide) ⟨issueC3closedAt, by simp, by decide⟩
  exact h.trans (by decide)

/-- A create event whose priority payload value does not parse. -/
def evC4bad : Event :=
  { type := EventTypeCreate, timestamp := gs r"2024-01-01T00:00:00Z",
    issueID := gs r"pb-x",
    payload := [(gs r"title", gs r"Task"), (gs r"description", []),
                (gs r"type", gs r"task"), (gs r"priority", gs r"xyz")] }

/-- The row that create produces despite the bad priority value. -/
def issueC4 : Issue :=
  { id := gs r"pb-x", title := gs r"Task", description := [],
    issueType := gs r"task", status := StatusOpen, priority := 2,
    createdAt := gs r"2024-01-01T00:00:00Z",
    updatedAt := gs r"2024-01-01T00:00:00Z", closedAt := [] }

/-- Claim C4 — counterexample.  Rebuilding from a single create event whose
priority payload value fails to parse succeeds (with the default priority
2) instead of aborting with an error, even though ParsePriority rejects
that value. -/
theorem C4_counterexample_invalid_priority_is_applied :
    applyEvents emptyCache [evC4bad] = .ok { emptyCache with issues := [issueC4] } ∧
    ParsePriority (gs r"xyz") = .error r"invalid priority" := by
  exact ⟨rfl, rfl⟩

/-- Claim C4 (amended): a priority payload value that fails to parse does
not abort event application — parsePriority replaces it by the default
priority 2, and create and update events whose other requirements hold
are applied with that default. -/
theorem C4_unparseable_priority_defaults_instead_of_failing :
    (∀ (s : GoStr) (e : String), ParsePriority s = .error e →
      parsePriority s = DefaultPriority) ∧
    (∀ (c : Cache) (ev : Event) (e : String),
      payloadGet ev.payload (gs r"title") ≠ [] →
      issueExistsB c ev.issueID = false →
      ParsePriority (payloadGet ev.payload (gs r"priority")) = .error e →
      applyCreate c ev = .ok { c with issues := c.issues ++
        [{ id := ev.issueID, title := payloadGet ev.payload (gs r"title"),
           description := payloadGet ev.payload (gs r"description"),
           issueType := if payloadGet ev.payload (gs r"type") = []
                        then gs r"task" else payloadGet ev.payload (gs r"type"),
           status := StatusOpen, priority := DefaultPriority,
           createdAt := ev.timestamp, updatedAt := ev.timestamp,
           closedAt := [] }] }) ∧
    (∀ (c : Cache) (ev : Event) (v : GoStr) (e : String),
      payloadFind ev.payload (gs r"priority") = some v →
      ParsePriority v = .error e →
      (∃ i ∈ c.issues, i.id = ev.issueID) →
      applyUpdate c ev = .ok { c with issues := c.issues.map fun i =>
        if i.id = ev.issueID then
          { i with
            issueType := (payloadFind ev.payload (gs r"type")).getD i.issueType,
            description :=
              (payloadFind ev.payload (gs r"description")).getD i.description,
            priority := DefaultPriority,
            updatedAt := ev.timestamp }
        else i }) := by
  have hdef : ∀ (s : GoStr) (e : String), ParsePriority s = .error e →
      parsePriority s = DefaultPriority := by
    intro s e h
    simp only [parsePriority, h]
  refine ⟨hdef, ?_, ?_⟩
  · intro c ev e h1 h2 h3
    simp only [applyCreate, if_neg h1, h2, Bool.false_eq_true, if_false,
      hdef _ _ h3]
  · intro c ev v e hfind hbad h2
    have hm : ¬ (c.issues.filter (fun i => decide (i.id = ev.issueID))).length = 0 := by
      obtain ⟨i, hi, hid⟩ := h2
      have hmem : i ∈ c.issues.filter (fun i => decide (i.id = ev.issueID)) :=
        List.mem_filter.mpr ⟨hi, by simpa using hid⟩
      have := List.length_pos.mpr (List.ne_nil_of_mem hmem)
      omega
    have hnone : ¬ payloadFind ev.payload (gs r"priority") = none := by
      simp [hfind]
    have hcond : ¬ (payloadFind ev.payload (gs r"type") = none ∧
        payloadFind ev.payload (gs r"description") = none ∧
        payloadFind ev.payload (gs r"priority") = none) := by
      intro hcon
      exact hnone hcon.2.2
    simp only [applyUpdate]
    rw [if_neg (by simpa using hcond), if_neg hm]
    refine congrArg Except.ok ?_
    refine congrArg (fun l => ({ c with issues := l } : Cache)) ?_
    refine List.map_congr_left fun i _ => ?_
    by_cases hid : i.id = ev.issueID
    · simp [hid, hfind, hdef _ _ hbad]
    · simp [hid]

/-- An update event carrying the unparseable priority value P9. -/
def evC4upd : Event :=
  { type := EventTypeUpdate, timestamp := gs r"2024-01-04T00:00:00Z",
    issueID := gs r"pb-a", payload := [(gs r"priority", gs r"P9")] }

/-- The row after that update: only priority (defaulted) and updated_at
change. -/
def issueC4upd : Issue :=
  { issueC3 with priority := 2, updatedAt := gs r"2024-01-04T00:00:00Z" }

/-- Claim C4 — witness instantiating the amended theorem: an update event
with priority value P9 applies with the default priority 2. -/
theorem C4_witness :
    applyUpdate cacheC3 evC4upd = .ok { cacheC3 with issues := [issueC4upd] } := by
  have h := C4_unparseable_priority_defaults_instead_of_failing.2.2 cacheC3
    evC4upd (gs r"P9") r"priority must be P0-P4" (by decide) (by decide)
    ⟨issueC3, by simp [cacheC3], by decide⟩
  exact h.trans (by decide)

theorem issueExistsB_of_ensure (c : Cache) (id : GoStr) (u : Unit)
    (h : ensureIssueExists c id = .ok u) : issueExistsB c id = true := by
  unfold ensureIssueExists at h
  by_cases hb : issueExistsB c id = true
  · exact hb
  · rw [if_neg hb] at h; cases h

theorem issueExistsB_of_ensureMissing (c : Cache) (id : GoStr) (u : Unit)
    (h : ensureIssueMissing c id = .ok u) : issueExistsB c id = false := by
  unfold ensureIssueMissing at h
  by_cases hb : issueExistsB c id = true
  · rw [if_pos hb] at h; cases h
  · simpa using hb

theorem updateIssueID_ok (rows : List Issue) (oldID newID ts : GoStr)
    (issues' : List Issue) (h : updateIssueID rows oldID newID ts = .ok issues') :
    issues' = rows.map fun i =>
      if i.id = oldID then { i with id := newID, updatedAt := ts } else i := by
  unfold updateIssueID at h
  by_cases hz : (rows.filter (fun i => decide (i.id = oldID))).length = 0
  · rw [if_pos hz] at h; cases h
  · rw [if_neg hz] at h
    injection h with h'
    exact h'.symm

/-- The two sequential dependency UPDATEs of a rename compose into one
simultaneous endpoint rewrite. -/
theorem updateDepsForRename_eq (deps : List Dep) (oldID newID : GoStr) :
    updateDepsForRename deps oldID newID = deps.map fun d =>
      { issueID := if d.issueID = oldID then newID else d.issueID,
        dependsOnID := if d.dependsOnID = oldID then newID else d.dependsOnID,
        depType := d.depType } := by
  unfold updateDepsForRename
  rw [List.map_map]
  refine List.map_congr_left fun d _ => ?_
  by_cases h1 : d.issueID = oldID <;> by_cases h2 : d.dependsOnID = oldID <;>
    simp [h1, h2, Function.comp]

/-- After an upsert, looking up the old id yields the new id. -/
theorem lookupRename_upsert (R : List (GoStr × GoStr)) (oldID newID : GoStr) :
    lookupRename (upsertRename R oldID newID) oldID = newID := by
  unfold lookupRename upsertRename
  rw [List.find?_append]
  have h1 : List.find? (fun r => decide (r.1 = oldID))
      (R.filter fun r => decide (r.1 ≠ oldID)) = none := by
    rw [List.find?_eq_none]
    intro x hx
    have hne := (List.mem_filter.mp hx).2
    simp only [decide_eq_true_eq] at hne ⊢
    exact hne
  rw [h1]
  simp

/-- Claim C5: a successful rename implies the resolved source issue
existed and the target id was unused, and the result state has the issue
row's id rewritten (with updated_at stamped), every dependency endpoint
equal to the old id rewritten to the new id, and the mapping old → new
recorded in the rename table. -/
theorem C5_applyRename_checks_and_rewrites :
    ∀ (c : Cache) (ev : Event) (c' : Cache),
      applyRename c ev = .ok c' →
      ∃ oldID newID,
        newID = payloadGet ev.payload (gs r"new_id") ∧ newID ≠ [] ∧
        resolveIssueID c.renames ev.issueID = .ok oldID ∧
        (∃ i ∈ c.issues, i.id = oldID) ∧
        (∀ i ∈ c.issues, i.id ≠ newID) ∧
        c'.issues = (c.issues.map fun i =>
          if i.id = oldID then { i with id := newID, updatedAt := ev.timestamp }
          else i) ∧
        c'.deps = (c.deps.map fun d =>
          { issueID := if d.issueID = oldID then newID else d.issueID,
            dependsOnID := if d.dependsOnID = oldID then newID else d.dependsOnID,
            depType := d.depType }) ∧
        (oldID, newID) ∈ c'.renames ∧
        lookupRename c'.renames oldID = newID := by
  intro c ev c' h
  simp only [applyRename] at h
  split at h
  · exact absurd h (by simp)
  · rename_i h0
    split at h
    · exact absurd h (by simp)
    · rename_i oldID hro
      split at h
      · exact absurd h (by simp)
      · rename_i resolvedNewID hrn
        split at h
        · exact absurd h (by simp)
        · rename_i hne
          split at h
          · exact absurd h (by simp)
          · rename_i heq2
            split at h
            · exact absurd h (by simp)
            · rename_i u hex
              split at h
              · exact absurd h (by simp)
              · rename_i u2 hmis
                split at h
                · exact absurd h (by simp)
                · rename_i issues' hupd
                  have hc : c' =
                      { issues := issues',
                        deps := updateDepsForRename c.deps oldID
                          (payloadGet ev.payload (gs r"new_id")),
                        renames := upsertRename c.renames oldID
                          (payloadGet ev.payload (gs r"new_id")) } := by
                    injection h with h2
                    exact h2.symm
                  subst hc
                  refine ⟨oldID, payloadGet ev.payload (gs r"new_id"),
                    rfl, h0, hro, ?_, ?_, ?_, ?_, ?_, ?_⟩
                  · have hb := issueExistsB_of_ensure c oldID u hex
                    unfold issueExistsB at hb
                    rw [List.any_eq_true] at hb
                    obtain ⟨i, hi, hp⟩ := hb
                    exact ⟨i, hi, by simpa using hp⟩
                  · have hb := issueExistsB_of_ensureMissing c
                      (payloadGet ev.payload (gs r"new_id")) u2 hmis
                    unfold issueExistsB at hb
                    intro i hi
                    intro hcon
                    have hany : c.issues.any (fun j =>
                        decide (j.id = payloadGet ev.payload (gs r"new_id"))) = true := by
                      rw [List.any_eq_true]
                      exact ⟨i, hi, by simpa using hcon⟩
                    rw [hb] at hany
                    cases hany
                  · exact updateIssueID_ok c.issues oldID
                      (payloadGet ev.payload (gs r"new_id")) ev.timestamp issues' hupd
                  · exact updateDepsForRename_eq c.deps oldID
                      (payloadGet ev.payload (gs r"new_id"))
                  · simp [upsertRename]
                  · exact lookupRename_upsert c.renames oldID
                      (payloadGet ev.payload (gs r"new_id"))

/-- The issue renamed by the C5 witness. -/
def issueC5 : Issue :=
  { id := gs r"pb-old", title := gs r"t", description := [],
    issueType := gs r"task", status := StatusOpen, priority := 2,
    createdAt := gs r"2024-01-01T00:00:00Z",
    updatedAt := gs r"2024-01-01T00:00:00Z", closedAt := [] }

/-- A dependency row naming the old id at both endpoints. -/
def depC5 : Dep :=
  { issueID := gs r"pb-old", dependsOnID := gs r"pb-old", depType := DepTypeBlocks }

/-- A cache with one issue and a self dependency, no renames yet. -/
def cacheC5 : Cache := { issues := [issueC5], deps := [depC5], renames := [] }

/-- The rename event pb-old to pb-new. -/
def evC5 : Event :=
  { type := EventTypeRename, timestamp := gs r"2024-01-02T00:00:00Z",
    issueID := gs r"pb-old", payload := [(gs r"new_id", gs r"pb-new")] }

/-- The issue row after the rename. -/
def issueC5new : Issue :=
  { issueC5 with id := gs r"pb-new", updatedAt := gs r"2024-01-02T00:00:00Z" }

/-- The dependency row after the rename. -/
def depC5new : Dep :=
  { issueID := gs r"pb-new", dependsOnID := gs r"pb-new", depType := DepTypeBlocks }

/-- The cache after the rename: id rewritten in the issue row and at both
dependency endpoints, and the mapping recorded. -/
def cacheC5res : Cache :=
  { issues := [issueC5new], deps := [depC5new],
    renames := [(gs r"pb-old", gs r"pb-new")] }

/-- Claim C5 — witness applying the theorem to a concrete successful
rename. -/
theorem C5_witness :
    ∃ oldID newID,
      newID = payloadGet evC5.payload (gs r"new_id") ∧ newID ≠ [] ∧
      resolveIssueID cacheC5.renames evC5.issueID = .ok oldID ∧
      (∃ i ∈ cacheC5.issues, i.id = oldID) ∧
      (∀ i ∈ cacheC5.issues, i.id ≠ newID) ∧
      cacheC5res.issues = (cacheC5.issues.map fun i =>
        if i.id = oldID then { i with id := newID, updatedAt := evC5.timestamp }
        else i) ∧
      cacheC5res.deps = (cacheC5.deps.map fun d =>
        { issueID := if d.issueID = oldID then newID else d.issueID,
          dependsOnID := if d.dependsOnID = oldID then newID else d.dependsOnID,
          depType := d.depType }) ∧
      (oldID, newID) ∈ cacheC5res.renames ∧
      lookupRename cacheC5res.renames oldID = newID :=
  C5_applyRename_checks_and_rewrites cacheC5 evC5 cacheC5res (by
    simp [applyRename, resolveIssueID, resolveLoop, lookupRename, cacheC5,
      evC5, cacheC5res, issueC5, depC5, issueC5new, depC5new, gs,
      updateIssueID, updateDepsForRename, upsertRename, ensureIssueExists,
      ensureIssueMissing, issueExistsB, payloadGet, trimSpace, isSpaceChar,
      StatusOpen, DepTypeBlocks, EventTypeRename])

/-- Propositional reading of the readiness predicate. -/
theorem isReady_iff (c : Cache) (i : Issue) :
    isReady c i = true ↔
      (i.status ≠ StatusClosed ∧
        ¬ ∃ d ∈ c.deps, d.issueID = i.id ∧ d.depType = DepTypeBlocks ∧
          ∃ j ∈ c.issues, j.id = d.dependsOnID ∧ j.status ≠ StatusClosed) := by
  unfold isReady
  simp [List.any_eq_true]

/-- Claim C7: the ready list contains exactly the issue rows that are not
closed and have no blocks edge joining to a non-closed issue row, and the
list is ordered by issue id ascending. -/
theorem C7_ready_list_membership_and_order :
    ∀ (c : Cache),
      (∀ i : Issue, i ∈ ListReadyIssues c ↔
        (i ∈ c.issues ∧ i.status ≠ StatusClosed ∧
          ¬ ∃ d ∈ c.deps, d.issueID = i.id ∧ d.depType = DepTypeBlocks ∧
            ∃ j ∈ c.issues, j.id = d.dependsOnID ∧ j.status ≠ StatusClosed)) ∧
      List.Pairwise (fun a b : Issue => strLe a.id b.id = true)
        (ListReadyIssues c) := by
  intro c
  constructor
  · intro i
    unfold ListReadyIssues
    rw [(List.perm_insertionSort
      (fun a b : Issue => strLe a.id b.id = true) _).mem_iff]
    rw [List.mem_filter]
    rw [isReady_iff]
  · unfold ListReadyIssues
    refine pairwise_insertionSort _ _ ?_ ?_
    · intro a _ b _
      rcases strLe_total a.id b.id with h | h
      · exact Or.inl h
      · exact Or.inr h
    · intro a _ b _ c' _ h1 h2
      exact strLe_trans a.id b.id c'.id h1 h2

/-- The minus sign is not a digit. -/
theorem minus_not_digit : ('-').isDigit = false := rfl

/-- The plus sign is not a digit. -/
theorem plus_not_digit : ('+').isDigit = false := rfl

/-- The two sign characters differ. -/
theorem minus_ne_plus : ('-' : Char) ≠ '+' := by decide

/-- Characterization of the inputs accepted by the modelled strconv.Atoi:
an optional sign, one or more digits, value within the signed 64-bit
range (negative values may reach 2^63). -/
theorem atoi_isSome_iff (n : GoStr) :
    (atoi n).isSome = true ↔
      ((n ≠ [] ∧ (∀ x ∈ n, x.isDigit = true) ∧ decDigitsVal n < 2 ^ 63) ∨
       (∃ ds, n = '+' :: ds ∧ ds ≠ [] ∧ (∀ x ∈ ds, x.isDigit = true) ∧
         decDigitsVal ds < 2 ^ 63) ∨
       (∃ ds, n = '-' :: ds ∧ ds ≠ [] ∧ (∀ x ∈ ds, x.isDigit = true) ∧
         decDigitsVal ds ≤ 2 ^ 63)) := by
  cases n with
  | nil => simp [atoi]
  | cons c rest =>
    by_cases hm : c = '-'
    · subst hm
      by_cases h0 : rest = []
      · subst h0
        simp [atoi, minus_not_digit, minus_ne_plus]
      · by_cases hd : ∀ x ∈ rest, x.isDigit = true
        · have hall : rest.all Char.isDigit = true := List.all_eq_true.mpr hd
          by_cases hv : decDigitsVal rest ≤ 2 ^ 63
          · simp [atoi, h0, hall, hd, hv, minus_not_digit, minus_ne_plus]
            exact fun _ => hd
          · simp [atoi, h0, hall, hd, hv, minus_not_digit, minus_ne_plus]
            exact fun _ => hd
        · have hall : ¬ rest.all Char.isDigit = true := by
            simpa [List.all_eq_true] using hd
          simp [atoi, h0, hall, hd, minus_not_digit, minus_ne_plus]
    · by_cases hp : c = '+'
      · subst hp
        by_cases h0 : rest = []
        · subst h0
          simp [atoi, plus_not_digit, minus_ne_plus.symm]
        · by_cases hd : ∀ x ∈ rest, x.isDigit = true
          · have hall : rest.all Char.isDigit = true := List.all_eq_true.mpr hd
            by_cases hv : decDigitsVal rest < 2 ^ 63
            · simp [atoi, h0, hall, hd, hv, plus_not_digit, minus_ne_plus.symm]
              exact fun _ => hd
            · simp [atoi, h0, hall, hd, hv, plus_not_digit, minus_ne_plus.symm]
              exact fun _ => hd
          · have hall : ¬ rest.all Char.isDigit = true := by
              simpa [List.all_eq_true] using hd
            simp [atoi, h0, hall, hd, plus_not_digit, minus_ne_plus.symm]
      · by_cases hcd : c.isDigit = true
        · by_cases hd : ∀ x ∈ rest, x.isDigit = true
          · have hall : (c :: rest).all Char.isDigit = true :=
              List.all_eq_true.mpr (by
                intro x hx
                rcases List.mem_cons.mp hx with h | h
                · exact h ▸ hcd
                · exact hd x h)
            by_cases hv : decDigitsVal (c :: rest) < 2 ^ 63
            · simp [atoi, hm, hp, hall, hcd, hd, hv]
              exact fun _ => hd
            · simp [atoi, hm, hp, hall, hcd, hd, hv]
              exact fun _ => hd
          · have hall : ¬ (c :: rest).all Char.isDigit = true := by
              simp only [List.all_eq_true]
              intro hcon
              exact hd fun x hx => hcon x (List.mem_cons_of_mem _ hx)
            simp [atoi, hm, hp, hall, hcd, hd]
        · have hall : ¬ (c :: rest).all Char.isDigit = true := by
            simp only [List.all_eq_true]
            intro hcon
            exact hcd (hcon c (by simp))
          simp [atoi, hm, hp, hall, hcd]

/-- Claim C9 — counterexample.  The candidate a.-5 has the shape
parent.suffix with suffix -5, which is not a string of decimal digits,
yet HasParentChildSuffix accepts it because strconv.Atoi accepts a signed
integer. -/
theorem C9_counterexample_signed_suffix_accepted :
    HasParentChildSuffix (gs r"a") (gs r"a.-5") = true ∧
    gs r"a.-5" = gs r"a" ++ '.' :: gs r"-5" ∧
    ¬ (gs r"-5" ≠ [] ∧ ∀ x ∈ gs r"-5", x.isDigit = true) := by
  refine ⟨by decide, by decide, ?_⟩
  intro hcon
  have := hcon.2 '-' (by decide)
  cases this

/-- Claim C9 (amended): the suffix-shape predicate holds of
(p, p ++ dot ++ n) exactly when strconv.Atoi accepts n — that is, when n
is non-empty and consists of an optional sign followed by digits whose
value fits the signed 64-bit integer range; every candidate not of the
form p ++ dot ++ n is rejected. -/
theorem C9_suffix_predicate_is_atoi_acceptance :
    (∀ p n : GoStr, HasParentChildSuffix p (p ++ '.' :: n) = (atoi n).isSome) ∧
    (∀ n : GoStr, (atoi n).isSome = true ↔
      ((n ≠ [] ∧ (∀ x ∈ n, x.isDigit = true) ∧ decDigitsVal n < 2 ^ 63) ∨
       (∃ ds, n = '+' :: ds ∧ ds ≠ [] ∧ (∀ x ∈ ds, x.isDigit = true) ∧
         decDigitsVal ds < 2 ^ 63) ∨
       (∃ ds, n = '-' :: ds ∧ ds ≠ [] ∧ (∀ x ∈ ds, x.isDigit = true) ∧
         decDigitsVal ds ≤ 2 ^ 63))) ∧
    (∀ p cand : GoStr, (∀ n, cand ≠ p ++ '.' :: n) →
      HasParentChildSuffix p cand = false) := by
  refine ⟨?_, atoi_isSome_iff, ?_⟩
  · intro p n
    unfold HasParentChildSuffix
    have hpre : (p ++ ['.']).isPrefixOf (p ++ '.' :: n) = true := by
      rw [List.isPrefixOf_iff_prefix]
      have : p ++ '.' :: n = (p ++ ['.']) ++ n := by simp
      rw [this]
      exact List.prefix_append _ _
    rw [if_pos hpre]
    have hdrop : (p ++ '.' :: n).drop (p ++ ['.']).length = n := by
      have : p ++ '.' :: n = (p ++ ['.']) ++ n := by simp
      rw [this, List.drop_left]
    rw [hdrop]
    by_cases h0 : n = []
    · subst h0
      simp [atoi]
    · simp [h0]
  · intro p cand hno
    unfold HasParentChildSuffix
    cases hpre : (p ++ ['.']).isPrefixOf cand with
    | false => simp [hpre]
    | true =>
      exfalso
      have hpfx : (p ++ ['.']) <+: cand := List.isPrefixOf_iff_prefix.mp hpre
      obtain ⟨t, ht⟩ := hpfx
      exact hno t (by rw [← ht]; simp)

/-- Claim C9 — witness applying the amended theorem: a digit suffix is
accepted via Atoi, and a candidate that does not extend the parent with a
dot is rejected. -/
theorem C9_witness :
    (HasParentChildSuffix (gs r"a") (gs r"a" ++ '.' :: gs r"17") =
      (atoi (gs r"17")).isSome) ∧
    HasParentChildSuffix (gs r"a") (gs r"b7") = false := by
  refine ⟨C9_suffix_predicate_is_atoi_acceptance.1 (gs r"a") (gs r"17"), ?_⟩
  refine C9_suffix_predicate_is_atoi_acceptance.2.2 (gs r"a") (gs r"b7") ?_
  intro n h
  injection h with h1 h2
  exact absurd h1 (by decide)

/-- One-step unfolding of the resolve loop. -/
theorem resolveLoop_step (renames : List (GoStr × GoStr)) (visited : List GoStr)
    (current : GoStr) :
    resolveLoop renames visited current =
      if current ∈ visited then .error r"rename cycle detected"
      else if lookupRename renames current = [] then .ok current
      else resolveLoop renames (current :: visited) (lookupRename renames current) := by
  rw [resolveLoop]
  simp [dite_eq_ite]

/-- Walking a cycle-free lookup chain from any of its nodes ends at the
final node, provided no chain node was already visited. -/
theorem resolveLoop_chain (renames : List (GoStr × GoStr)) (f : Nat → GoStr)
    (n : Nat)
    (hne : ∀ i, i ≤ n → f i ≠ [])
    (hstep : ∀ i, i < n → lookupRename renames (f i) = f (i + 1))
    (hlast : lookupRename renames (f n) = [])
    (hinj : ∀ i j, i ≤ n → j ≤ n → f i = f j → i = j) :
    ∀ i, i ≤ n → ∀ visited : List GoStr,
      (∀ j, i ≤ j → j ≤ n → f j ∉ visited) →
      resolveLoop renames visited (f i) = .ok (f n) := by
  suffices H : ∀ k i, i ≤ n → n - i = k → ∀ visited : List GoStr,
      (∀ j, i ≤ j → j ≤ n → f j ∉ visited) →
      resolveLoop renames visited (f i) = .ok (f n) by
    intro i hi visited hfresh
    exact H (n - i) i hi rfl visited hfresh
  intro k
  induction k with
  | zero =>
    intro i hi hk visited hfresh
    have hieq : i = n := by omega
    subst hieq
    rw [resolveLoop_step]
    rw [if_neg (hfresh i le_rfl le_rfl)]
    rw [if_pos hlast]
  | succ k ih =>
    intro i hi hk visited hfresh
    have hlt : i < n := by omega
    rw [resolveLoop_step]
    rw [if_neg (hfresh i le_rfl hi)]
    rw [hstep i hlt]
    rw [if_neg (hne (i + 1) (by omega))]
    refine ih (i + 1) (by omega) (by omega) (f i :: visited) ?_
    intro j hj1 hj2
    intro hcon
    rcases List.mem_cons.mp hcon with hcon | hcon
    · have := hinj j i hj2 hi hcon
      omega
    · exact hfresh j (by omega) hj2 hcon

/-- Any node that starts an infinite lookup walk resolves to a cycle
error: the visited set grows at every step while staying inside the
finite key set of the rename table. -/
theorem resolveLoop_walk_error (renames : List (GoStr × GoStr)) (g : Nat → GoStr)
    (hne : ∀ k, g k ≠ [])
    (hstep : ∀ k, lookupRename renames (g k) = g (k + 1)) :
    ∀ N (visited : List GoStr) (current : GoStr),
      unvisitedKeys renames visited ≤ N → (∃ k, current = g k) →
      resolveLoop renames visited current = .error r"rename cycle detected" := by
  intro N
  induction N with
  | zero =>
    intro visited current h0 ⟨k, hk⟩
    subst hk
    have hkey : g k ∈ renames.map Prod.fst := by
      refine mem_keys_of_lookupRename_ne renames (g k) ?_
      rw [hstep k]
      exact hne (k + 1)
    have hvis : g k ∈ visited := by
      by_contra hcon
      have hmem : g k ∈ (renames.map Prod.fst).filter
          (fun x => decide (x ∉ visited)) :=
        List.mem_filter.mpr ⟨hkey, by simpa using hcon⟩
      have := List.length_pos.mpr (List.ne_nil_of_mem hmem)
      unfold unvisitedKeys at h0
      omega
    rw [resolveLoop_step, if_pos hvis]
  | succ N ih =>
    intro visited current hN ⟨k, hk⟩
    subst hk
    by_cases hvis : g k ∈ visited
    · rw [resolveLoop_step, if_pos hvis]
    · rw [resolveLoop_step, if_neg hvis]
      rw [hstep k]
      rw [if_neg (hne (k + 1))]
      refine ih (g k :: visited) (g (k + 1)) ?_ ⟨k + 1, rfl⟩
      have hkey : g k ∈ renames.map Prod.fst := by
        refine mem_keys_of_lookupRename_ne renames (g k) ?_
        rw [hstep k]
        exact hne (k + 1)
      have hdec : unvisitedKeys renames (g k :: visited) <
          unvisitedKeys renames visited := by
        unfold unvisitedKeys
        refine length_filter_lt_of_mem _ _ _ ?_ (g k) hkey ?_ ?_
        · intro a ha
          simp only [decide_eq_true_eq] at ha ⊢
          intro hmem
          exact ha (List.mem_cons_of_mem _ hmem)
        · simpa using hvis
        · simp
      omega

/-- Claim C6: resolving any node of a cycle-free rename chain returns the
chain's final id; resolving an id that trims to the empty string fails
with the missing-id error; and an id whose lookup walk never terminates
(so the walk revisits a key of the finite rename table) fails with the
rename-cycle error instead of looping. -/
theorem C6_resolveIssueID_chain_empty_cycle :
    (∀ (renames : List (GoStr × GoStr)) (f : Nat → GoStr) (n : Nat),
      (∀ i, i ≤ n → trimSpace (f i) = f i) →
      (∀ i, i ≤ n → f i ≠ []) →
      (∀ i, i < n → lookupRename renames (f i) = f (i + 1)) →
      lookupRename renames (f n) = [] →
      (∀ i j, i ≤ n → j ≤ n → f i = f j → i = j) →
      ∀ i, i ≤ n → resolveIssueID renames (f i) = .ok (f n)) ∧
    (∀ (renames : List (GoStr × GoStr)) (id : GoStr),
      trimSpace id = [] →
      resolveIssueID renames id = .error r"issue id is required") ∧
    (∀ (renames : List (GoStr × GoStr)) (g : Nat → GoStr) (id : GoStr),
      trimSpace id = g 0 →
      (∀ k, g k ≠ []) →
      (∀ k, lookupRename renames (g k) = g (k + 1)) →
      resolveIssueID renames id = .error r"rename cycle detected") := by
  refine ⟨?_, ?_, ?_⟩
  · intro renames f n htrim hne hstep hlast hinj i hi
    unfold resolveIssueID
    rw [htrim i hi]
    rw [if_neg (hne i hi)]
    exact resolveLoop_chain renames f n hne hstep hlast hinj i hi []
      (fun j _ _ hcon => (List.not_mem_nil _ hcon))
  · intro renames id h
    unfold resolveIssueID
    rw [h]
    rfl
  · intro renames g id htrim hne hstep
    unfold resolveIssueID
    rw [htrim]
    rw [if_neg (hne 0)]
    exact resolveLoop_walk_error renames g hne hstep
      (unvisitedKeys renames []) [] (g 0) le_rfl ⟨0, rfl⟩

/-- The chain function of the C6 witness: a maps to b maps to c. -/
def f6 : Nat → GoStr :=
  fun i => if i = 0 then gs r"a" else if i = 1 then gs r"b" else gs r"c"

/-- Claim C6 — witness: a two-step chain resolves to its end, blank input
fails with the missing-id error, and a self-mapping fails with the
rename-cycle error. -/
theorem C6_witness :
    resolveIssueID [(gs r"a", gs r"b"), (gs r"b", gs r"c")] (gs r"a") =
      .ok (gs r"c") ∧
    resolveIssueID [] (gs r"   ") = .error r"issue id is required" ∧
    resolveIssueID [(gs r"a", gs r"a")] (gs r"a") =
      .error r"rename cycle detected" := by
  refine ⟨?_, ?_, ?_⟩
  · exact C6_resolveIssueID_chain_empty_cycle.1
      [(gs r"a", gs r"b"), (gs r"b", gs r"c")] f6 2
      (by intro i hi; interval_cases i <;> decide)
      (by intro i hi; interval_cases i <;> decide)
      (by intro i hi; interval_cases i <;> decide)
      (by decide)
      (by
        intro i j hi hj hf
        interval_cases i <;> interval_cases j <;>
          first | rfl | exact absurd hf (by decide))
      0 (by omega)
  · exact C6_resolveIssueID_chain_empty_cycle.2.1 [] (gs r"   ") (by decide)
  · exact C6_resolveIssueID_chain_empty_cycle.2.2 [(gs r"a", gs r"a")]
      (fun _ => gs r"a") (gs r"a") (by decide)
      (fun _ => (by decide : gs r"a" ≠ []))
      (fun _ => (by decide :
        lookupRename [(gs r"a", gs r"a")] (gs r"a") = gs r"a"))

/-- The sort comparison is asymmetric. -/
theorem eventLess_asymm (a b : Nat × Event) :
    eventLess a b = true → eventLess b a = true → False := by
  intro h1 h2
  unfold eventLess at h1 h2
  cases hpa : parseRFC3339 a.2.timestamp with
  | none =>
    cases hpb : parseRFC3339 b.2.timestamp with
    | none => rw [hpa, hpb] at h1 h2; simp at h1 h2; omega
    | some tb => rw [hpa, hpb] at h1 h2; simp at h1 h2; omega
  | some ta =>
    cases hpb : parseRFC3339 b.2.timestamp with
    | none => rw [hpa, hpb] at h1 h2; simp at h1 h2; omega
    | some tb =>
      rw [hpa, hpb] at h1 h2
      by_cases h : ta = tb
      · subst h
        simp at h1 h2
        omega
      · simp [h, Ne.symm h] at h1 h2
        omega

/-- The non-strict comparison is total. -/
theorem eventLe_total (a b : Nat × Event) :
    eventLe a b = true ∨ eventLe b a = true := by
  unfold eventLe
  cases hba : eventLess b a with
  | false => left; simp
  | true =>
    cases hab : eventLess a b with
    | false => right; simp
    | true => exact absurd (eventLess_asymm a b hab hba) (fun f => f)

/-- On pairs whose timestamps both parse, the non-strict comparison is
the lexicographic order on (instant, file index). -/
theorem eventLe_iff_of_parse (a b : Nat × Event) (ta tb : Nat)
    (ha : parseRFC3339 a.2.timestamp = some ta)
    (hb : parseRFC3339 b.2.timestamp = some tb) :
    (eventLe a b = true ↔ (ta < tb ∨ (ta = tb ∧ a.1 ≤ b.1))) := by
  unfold eventLe eventLess
  rw [ha, hb]
  by_cases h : tb = ta
  · subst h
    simp
  · simp [h]
    omega

/-- Claim C2 (amended): when every timestamp parses, the projection sort
orders events primarily by parsed timestamp ascending and secondarily by
original file index ascending — the output is a permutation of the
indexed events that is pairwise strictly ordered by (instant, index). -/
theorem C2_sortEvents_orders_by_timestamp_then_file_index :
    ∀ events : List Event,
      (∀ e ∈ events, (parseRFC3339 e.timestamp).isSome = true) →
      ∃ l : List (Nat × Event),
        sortEvents events = l.map Prod.snd ∧
        l.Perm events.enum ∧
        l.Pairwise (fun a b =>
          (parseRFC3339 a.2.timestamp).getD 0 <
            (parseRFC3339 b.2.timestamp).getD 0 ∨
          ((parseRFC3339 a.2.timestamp).getD 0 =
              (parseRFC3339 b.2.timestamp).getD 0 ∧
            a.1 < b.1)) := by
  intro events hall
  have hperm := List.perm_insertionSort
    (fun a b : Nat × Event => eventLe a b = true) events.enum
  refine ⟨List.insertionSort (fun a b => eventLe a b = true) events.enum,
    rfl, hperm, ?_⟩
  have hallp : ∀ p : Nat × Event, p ∈ events.enum →
      (parseRFC3339 p.2.timestamp).isSome = true := by
    intro p hp
    refine hall p.2 ?_
    rw [← List.enum_map_snd events]
    exact List.mem_map_of_mem Prod.snd hp
  have hle : (List.insertionSort (fun a b => eventLe a b = true)
      events.enum).Pairwise (fun a b => eventLe a b = true) := by
    refine pairwise_insertionSort _ _ ?_ ?_
    · intro a _ b _
      exact eventLe_total a b
    · intro a ha b hb c hc h1 h2
      obtain ⟨ta, hta⟩ := Option.isSome_iff_exists.mp (hallp a ha)
      obtain ⟨tb, htb⟩ := Option.isSome_iff_exists.mp (hallp b hb)
      obtain ⟨tc, htc⟩ := Option.isSome_iff_exists.mp (hallp c hc)
      rw [eventLe_iff_of_parse a b ta tb hta htb] at h1
      rw [eventLe_iff_of_parse b c tb tc htb htc] at h2
      rw [eventLe_iff_of_parse a c ta tc hta htc]
      omega
  have hnodup : ((List.insertionSort (fun a b => eventLe a b = true)
      events.enum).map Prod.fst).Nodup :=
    (hperm.map Prod.fst).symm.nodup (List.nodup_enum_map_fst events)
  have hfst : (List.insertionSort (fun a b => eventLe a b = true)
      events.enum).Pairwise (fun a b => a.1 ≠ b.1) := by
    have := List.pairwise_map.mp hnodup
    exact this
  have hboth := hle.and hfst
  refine hboth.imp_of_mem ?_
  intro a b ha hb hab
  have ha' : a ∈ events.enum := hperm.mem_iff.mp ha
  have hb' : b ∈ events.enum := hperm.mem_iff.mp hb
  obtain ⟨ta, hta⟩ := Option.isSome_iff_exists.mp (hallp a ha')
  obtain ⟨tb, htb⟩ := Option.isSome_iff_exists.mp (hallp b hb')
  rw [eventLe_iff_of_parse a b ta tb hta htb] at hab
  rw [hta, htb]
  simp only [Option.getD_some]
  rcases hab.1 with h | h
  · exact Or.inl h
  · right
    refine ⟨h.1, ?_⟩
    have := hab.2
    omega

/-- An event with an unparseable timestamp, listed first in the log. -/
def evC2unparseable : Event :=
  { type := EventTypeCreate, timestamp := gs r"not-a-time",
    issueID := gs r"u", payload := [] }

/-- An event with a parseable timestamp, listed second in the log. -/
def evC2parseable : Event :=
  { type := EventTypeCreate, timestamp := gs r"2024-01-02T03:04:05Z",
    issueID := gs r"p", payload := [] }

/-- Claim C2 — counterexample.  An event with an unparseable timestamp is
not moved after the parseable events: with an unparseable event in file
position 0 and a parseable one in position 1, the sort compares them by
file index and leaves the unparseable event first. -/
theorem C2_counterexample_unparseable_not_after_parseable :
    sortEvents [evC2unparseable, evC2parseable] =
      [evC2unparseable, evC2parseable] ∧
    parseRFC3339 evC2unparseable.timestamp = none ∧
    (parseRFC3339 evC2parseable.timestamp).isSome = true ∧
    evC2unparseable ≠ evC2parseable := by
  refine ⟨by decide, by decide, by decide, by decide⟩

/-- Claim C2 — witness: two parseable events appended in reverse
timestamp order are permuted into ascending timestamp order. -/
theorem C2_witness :
    ∃ l : List (Nat × Event),
      sortEvents [evC2parseable,
        { type := EventTypeCreate, timestamp := gs r"2024-01-02T03:04:04Z",
          issueID := gs r"q", payload := [] }] = l.map Prod.snd ∧
      l.Perm ([evC2parseable,
        { type := EventTypeCreate, timestamp := gs r"2024-01-02T03:04:04Z",
          issueID := gs r"q", payload := [] }].enum) ∧
      l.Pairwise (fun a b =>
        (parseRFC3339 a.2.timestamp).getD 0 <
          (parseRFC3339 b.2.timestamp).getD 0 ∨
        ((parseRFC3339 a.2.timestamp).getD 0 =
            (parseRFC3339 b.2.timestamp).getD 0 ∧
          a.1 < b.1)) :=
  C2_sortEvents_orders_by_timestamp_then_file_index
    [evC2parseable,
      { type := EventTypeCreate, timestamp := gs r"2024-01-02T03:04:04Z",
        issueID := gs r"q", payload := [] }]
    (by decide)

/-- When every remaining suffix length is in use, the expansion loop
exhausts the digest and reports a collision. -/
theorem genUniqueLoop_collision (pfx hash : GoStr) (p : GoStr → Bool) :
    ∀ start, (∀ k, start ≤ k → k ≤ hash.length →
      p (issueIDFromHash pfx hash k) = true) →
    genUniqueLoop pfx hash (fun s => .ok (p s)) start =
      .error r"issue id collision" := by
  suffices H : ∀ m start, hash.length + 1 - start = m →
      (∀ k, start ≤ k → k ≤ hash.length →
        p (issueIDFromHash pfx hash k) = true) →
      genUniqueLoop pfx hash (fun s => .ok (p s)) start =
        .error r"issue id collision" by
    intro start hk
    exact H (hash.length + 1 - start) start rfl hk
  intro m
  induction m with
  | zero =>
    intro start hm hk
    rw [genUniqueLoop]
    rw [if_neg (by omega)]
  | succ m ih =>
    intro start hm hk
    rw [genUniqueLoop]
    by_cases hs : start ≤ hash.length
    · rw [if_pos hs]
      have hp := hk start le_rfl hs
      simp only [hp]
      exact ih (start + 1) (by omega) (fun k h1 h2 => hk k (by omega) h2)
    · rw [if_neg hs]

/-- The expansion loop returns the candidate at the least free length at
or beyond its starting length. -/
theorem genUniqueLoop_finds (pfx hash : GoStr) (p : GoStr → Bool) :
    ∀ start kmin, start ≤ kmin → kmin ≤ hash.length →
      p (issueIDFromHash pfx hash kmin) = false →
      (∀ j, start ≤ j → j < kmin → p (issueIDFromHash pfx hash j) = true) →
      genUniqueLoop pfx hash (fun s => .ok (p s)) start =
        .ok (issueIDFromHash pfx hash kmin) := by
  suffices H : ∀ m start kmin, kmin - start = m → start ≤ kmin →
      kmin ≤ hash.length →
      p (issueIDFromHash pfx hash kmin) = false →
      (∀ j, start ≤ j → j < kmin → p (issueIDFromHash pfx hash j) = true) →
      genUniqueLoop pfx hash (fun s => .ok (p s)) start =
        .ok (issueIDFromHash pfx hash kmin) by
    intro start kmin h1 h2 h3 h4
    exact H (kmin - start) start kmin rfl h1 h2 h3 h4
  intro m
  induction m with
  | zero =>
    intro start kmin hm h1 h2 h3 h4
    have : start = kmin := by omega
    subst this
    rw [genUniqueLoop]
    rw [if_pos (by omega)]
    simp only [h3]
  | succ m ih =>
    intro start kmin hm h1 h2 h3 h4
    have hlt : start < kmin := by omega
    rw [genUniqueLoop]
    rw [if_pos (by omega)]
    have hp := h4 start le_rfl hlt
    simp only [hp]
    exact ih (start + 1) kmin (by omega) (by omega) h2 h3
      (fun j hj1 hj2 => h4 j (by omega) hj2)

/-- Claim C8: with a 64-character digest and a pure existence predicate,
the generator returns the candidate built from the smallest suffix length
k at least 3 whose candidate the predicate reported free, and reports a
collision when every length from 3 to 64 is in use. -/
theorem C8_GenerateUniqueIssueID_minimal_free_suffix :
    (∀ (pfx hash : GoStr) (p : GoStr → Bool) (k : Nat),
      hash.length = 64 → 3 ≤ k → k ≤ 64 →
      p (issueIDFromHash pfx hash k) = false →
      ∃ kmin, 3 ≤ kmin ∧ kmin ≤ k ∧
        GenerateUniqueIssueID pfx hash (fun s => .ok (p s)) =
          .ok (issueIDFromHash pfx hash kmin) ∧
        p (issueIDFromHash pfx hash kmin) = false ∧
        (∀ j, 3 ≤ j → j < kmin → p (issueIDFromHash pfx hash j) = true)) ∧
    (∀ (pfx hash : GoStr) (p : GoStr → Bool),
      hash.length = 64 →
      (∀ k, 3 ≤ k → k ≤ 64 → p (issueIDFromHash pfx hash k) = true) →
      GenerateUniqueIssueID pfx hash (fun s => .ok (p s)) =
        .error r"issue id collision") := by
  constructor
  · intro pfx hash p k hlen hk3 hk64 hpk
    have hex : ∃ m, 3 ≤ m ∧ p (issueIDFromHash pfx hash m) = false :=
      ⟨k, hk3, hpk⟩
    have hfle : Nat.find hex ≤ k := Nat.find_le ⟨hk3, hpk⟩
    refine ⟨Nat.find hex, (Nat.find_spec hex).1, hfle, ?_, ?_, ?_⟩
    · unfold GenerateUniqueIssueID
      refine genUniqueLoop_finds pfx hash p 3 (Nat.find hex)
        (Nat.find_spec hex).1 (by omega) (Nat.find_spec hex).2 ?_
      intro j hj1 hj2
      have := Nat.find_min hex hj2
      cases hpj : p (issueIDFromHash pfx hash j) with
      | false => exact absurd ⟨hj1, hpj⟩ this
      | true => rfl
    · exact (Nat.find_spec hex).2
    · intro j hj1 hj2
      have := Nat.find_min hex hj2
      cases hpj : p (issueIDFromHash pfx hash j) with
      | false => exact absurd ⟨hj1, hpj⟩ this
      | true => rfl
  · intro pfx hash p hlen hall
    unfold GenerateUniqueIssueID
    exact genUniqueLoop_collision pfx hash p 3
      (fun k h1 h2 => hall k h1 (by omega))

/-- The 64-character digest used by the C8 witness. -/
def hashC8 : GoStr :=
  gs r"0123456789abcdef0123456789abcdef0123456789abcdef0123456789abcdef"

/-- The existence predicate of the C8 witness: ids of length at most six
are taken. -/
def existsC8 (s : GoStr) : Bool := decide (s.length ≤ 6)

/-- Claim C8 — witness: with candidates of suffix lengths 3 in use and 4
free, the generator is characterized at the least free length. -/
theorem C8_witness :
    ∃ kmin, 3 ≤ kmin ∧ kmin ≤ 4 ∧
      GenerateUniqueIssueID (gs r"pb") hashC8 (fun s => .ok (existsC8 s)) =
        .ok (issueIDFromHash (gs r"pb") hashC8 kmin) ∧
      existsC8 (issueIDFromHash (gs r"pb") hashC8 kmin) = false ∧
      (∀ j, 3 ≤ j → j < kmin →
        existsC8 (issueIDFromHash (gs r"pb") hashC8 j) = true) :=
  C8_GenerateUniqueIssueID_minimal_free_suffix.1 (gs r"pb") hashC8 existsC8 4
    (by decide) (by decide) (by decide) (by decide)

/-- One-step unfolding of the decimal renderer. -/
theorem natToDec_step (n : Nat) :
    natToDec n = if n < 10 then [Char.ofNat (48 + n)]
      else natToDec (n / 10) ++ [Char.ofNat (48 + n % 10)] := by
  rw [natToDec]
  simp [dite_eq_ite]

/-- Character facts about a single decimal digit. -/
theorem digitChar_facts (r : Nat) (hr : r < 10) :
    (Char.ofNat (48 + r)).toNat = 48 + r ∧
    (Char.ofNat (48 + r)).isDigit = true ∧
    isSpaceChar (Char.ofNat (48 + r)) = false := by
  interval_cases r <;> refine ⟨by decide, by decide, by decide⟩

/-- Appending one digit multiplies the accumulated value by ten. -/
theorem decDigitsVal_append_digit (xs : GoStr) (c : Char) :
    decDigitsVal (xs ++ [c]) = decDigitsVal xs * 10 + (c.toNat - 48) := by
  unfold decDigitsVal
  rw [List.foldl_append]
  rfl

/-- The decimal renderer round-trips, is never empty, and produces only
digits. -/
theorem natToDec_facts : ∀ n : Nat,
    decDigitsVal (natToDec n) = n ∧ natToDec n ≠ [] ∧
    (∀ c ∈ natToDec n, c.isDigit = true) := by
  intro n
  induction n using Nat.strong_induction_on with
  | _ n ih =>
    by_cases h : n < 10
    · rw [natToDec_step, if_pos h]
      obtain ⟨h1, h2, _⟩ := digitChar_facts n h
      refine ⟨?_, by simp, ?_⟩
      · unfold decDigitsVal
        simp [h1]
      · intro c hc
        rw [List.mem_singleton] at hc
        exact hc ▸ h2
    · rw [natToDec_step, if_neg h]
      have hdiv : n / 10 < n :=
        Nat.div_lt_self (by omega) (by decide)
      obtain ⟨ih1, ih2, ih3⟩ := ih (n / 10) hdiv
      have hmod : n % 10 < 10 := Nat.mod_lt _ (by decide)
      obtain ⟨hc1, hc2, _⟩ := digitChar_facts (n % 10) hmod
      refine ⟨?_, by simp, ?_⟩
      · rw [decDigitsVal_append_digit, ih1, hc1]
        omega
      · intro c hc
        rcases List.mem_append.mp hc with hm | hm
        · exact ih3 c hm
        · rw [List.mem_singleton] at hm
          exact hm ▸ hc2
/-- The renderer is injective (via the round trip). -/
theorem natToDec_inj (a b : Nat) (h : natToDec a = natToDec b) : a = b := by
  have ha := (natToDec_facts a).1
  have hb := (natToDec_facts b).1
  rw [← ha, h, hb]

/-- A digit character is not white space. -/
theorem isSpaceChar_eq_false_of_digit (c : Char) (h : c.isDigit = true) :
    isSpaceChar c = false := by
  cases hs : isSpaceChar c
  · rfl
  · exfalso
    unfold isSpaceChar at hs
    simp only [Bool.or_eq_true, decide_eq_true_eq] at hs
    rcases hs with ((((h1 | h1) | h1) | h1) | h1) | h1 <;>
      (subst h1; exact absurd h (by decide))

/-- A list whose dropWhile is itself has a head that fails the
predicate. -/
theorem head_pred_false_of_dropWhile_self (p : Char → Bool) (x : Char)
    (xs : GoStr) (h : (x :: xs).dropWhile p = x :: xs) : p x = false := by
  cases hp : p x
  · rfl
  · exfalso
    rw [List.dropWhile_cons, if_pos hp] at h
    have hsubxs : (xs.dropWhile p).Sublist xs := List.dropWhile_sublist p
    have := List.Sublist.length_le hsubxs
    have hlen := congrArg List.length h
    simp only [List.length_cons] at hlen
    omega

/-- A trimmed string is unchanged by either dropWhile. -/
theorem dropWhile_eq_self_of_trimSpace (s : GoStr) (h : trimSpace s = s) :
    s.dropWhile isSpaceChar = s ∧
    s.reverse.dropWhile isSpaceChar = s.reverse := by
  have h1 : s.dropWhile isSpaceChar = s := by
    have hsub : (s.dropWhile isSpaceChar).Sublist s :=
      List.dropWhile_sublist isSpaceChar
    have hsub2 : ((s.dropWhile isSpaceChar).reverse.dropWhile
        isSpaceChar).Sublist (s.dropWhile isSpaceChar).reverse :=
      List.dropWhile_sublist isSpaceChar
    have hlen : (trimSpace s).length = s.length := by rw [h]
    unfold trimSpace at hlen
    rw [List.length_reverse] at hlen
    have hle2 := List.Sublist.length_le hsub2
    rw [List.length_reverse] at hle2
    have hle1 := List.Sublist.length_le hsub
    exact hsub.eq_of_length (by omega)
  refine ⟨h1, ?_⟩
  have h2 : trimSpace s = (s.reverse.dropWhile isSpaceChar).reverse := by
    unfold trimSpace
    rw [h1]
  rw [h] at h2
  have := congrArg List.reverse h2
  rw [List.reverse_reverse] at this
  exact this.symm

/-- Appending a dot and a non-empty run of non-space characters to a
trimmed string yields a trimmed string. -/
theorem trimSpace_append_of (rp ds : GoStr) (hrp : trimSpace rp = rp)
    (hds : ds ≠ []) (hdig : ∀ c ∈ ds, isSpaceChar c = false) :
    trimSpace (rp ++ '.' :: ds) = rp ++ '.' :: ds := by
  obtain ⟨h1, h2⟩ := dropWhile_eq_self_of_trimSpace rp hrp
  have hdot : isSpaceChar '.' = false := by decide
  have hf : (rp ++ '.' :: ds).dropWhile isSpaceChar = rp ++ '.' :: ds := by
    cases rp with
    | nil => simp [List.dropWhile_cons, hdot]
    | cons r rs =>
      have hr := head_pred_false_of_dropWhile_self isSpaceChar r rs h1
      simp [List.dropWhile_cons, hr]
  have hrev : (rp ++ '.' :: ds).reverse = ds.reverse ++ '.' :: rp.reverse := by
    simp
  have hg : (rp ++ '.' :: ds).reverse.dropWhile isSpaceChar =
      (rp ++ '.' :: ds).reverse := by
    rw [hrev]
    cases hrds : ds.reverse with
    | nil =>
      exact absurd (List.reverse_eq_nil_iff.mp hrds) hds
    | cons c cs =>
      have hc : c ∈ ds := List.mem_reverse.mp (hrds ▸ List.mem_cons_self c cs)
      have hcns := hdig c hc
      simp [List.dropWhile_cons, hcns]
  unfold trimSpace
  rw [hf, hg, List.reverse_reverse]

/-- Resolving a trimmed, unmapped, non-empty id returns it unchanged. -/
theorem resolveIssueID_of_unmapped (renames : List (GoStr × GoStr)) (s : GoStr)
    (hts : trimSpace s = s) (hs : s ≠ [])
    (hlk : lookupRename renames s = []) :
    resolveIssueID renames s = .ok s := by
  unfold resolveIssueID
  rw [hts, if_neg hs, resolveLoop_step]
  simp [hlk]

/-- A successful resolve ends at an id with no further mapping. -/
theorem resolveLoop_ok_last (renames : List (GoStr × GoStr)) (out : GoStr) :
    ∀ m (visited : List GoStr) (current : GoStr),
      unvisitedKeys renames visited ≤ m →
      resolveLoop renames visited current = .ok out →
      lookupRename renames out = [] := by
  intro m
  induction m with
  | zero =>
    intro visited current h0 h
    rw [resolveLoop_step] at h
    by_cases hv : current ∈ visited
    · rw [if_pos hv] at h; cases h
    · rw [if_neg hv] at h
      by_cases hl : lookupRename renames current = []
      · rw [if_pos hl] at h
        injection h with h2
        exact h2 ▸ hl
      · exfalso
        have hkey := mem_keys_of_lookupRename_ne renames current hl
        have hmem : current ∈ (renames.map Prod.fst).filter
            (fun x => decide (x ∉ visited)) :=
          List.mem_filter.mpr ⟨hkey, by simpa using hv⟩
        have := List.length_pos.mpr (List.ne_nil_of_mem hmem)
        unfold unvisitedKeys at h0
        omega
  | succ m ih =>
    intro visited current hm h
    rw [resolveLoop_step] at h
    by_cases hv : current ∈ visited
    · rw [if_pos hv] at h; cases h
    · rw [if_neg hv] at h
      by_cases hl : lookupRename renames current = []
      · rw [if_pos hl] at h
        injection h with h2
        exact h2 ▸ hl
      · rw [if_neg hl] at h
        refine ih (current :: visited) (lookupRename renames current) ?_ h
        have hkey := mem_keys_of_lookupRename_ne renames current hl
        have hdec : unvisitedKeys renames (current :: visited) <
            unvisitedKeys renames visited := by
          unfold unvisitedKeys
          refine length_filter_lt_of_mem _ _ _ ?_ current hkey ?_ ?_
          · intro a ha
            simp only [decide_eq_true_eq] at ha ⊢
            intro hmem
            exact ha (List.mem_cons_of_mem _ hmem)
          · simpa using hv
          · simp
        omega

/-- A successful resolveIssueID ends at an id with no further mapping. -/
theorem resolveIssueID_ok_last (renames : List (GoStr × GoStr)) (id out : GoStr)
    (h : resolveIssueID renames id = .ok out) :
    lookupRename renames out = [] := by
  unfold resolveIssueID at h
  by_cases h0 : trimSpace id = []
  · rw [if_pos h0] at h; cases h
  · rw [if_neg h0] at h
    exact resolveLoop_ok_last renames out (unvisitedKeys renames [])
      [] (trimSpace id) le_rfl h

/-- An id reported available carries no issue row and no effective rename
mapping. -/
theorem issueIDAvailable_true_facts (c : Cache) (id : GoStr)
    (h : issueIDAvailable c id = .ok true) :
    issueExistsB c id = false ∧ lookupRename c.renames id = [] := by
  unfold issueIDAvailable at h
  split at h
  · exact absurd h (by simp)
  · rename_i resolved hr
    split at h
    · exact absurd h (by simp)
    · rename_i hne
      have hres : resolved = id := not_ne_iff.mp hne
      subst hres
      injection h with h2
      have hx : issueExistsB c resolved = false := by
        cases hx2 : issueExistsB c resolved
        · rfl
        · rw [hx2] at h2; cases h2
      exact ⟨hx, resolveIssueID_ok_last c.renames resolved resolved hr⟩

/-- Members are bounded by a foldr max. -/
theorem le_foldr_max (l : List Nat) (x : Nat) (hx : x ∈ l) :
    x ≤ l.foldr max 0 := by
  induction l with
  | nil => cases hx
  | cons y ys ih =>
    rcases List.mem_cons.mp hx with h | h
    · subst h
      exact le_max_left _ _
    · exact le_trans (ih h) (le_max_right _ _)

/-- There is always a positive suffix that is unused, carried by no issue
row, and unmapped in the renames table. -/
theorem exists_fresh_suffix (c : Cache) (rp : GoStr) (used : List Int) :
    ∃ N : Nat, 0 < N ∧ ((N : Int) ∉ used) ∧
      issueExistsB c (rp ++ '.' :: natToDec N) = false ∧
      lookupRename c.renames (rp ++ '.' :: natToDec N) = [] := by
  have hdropval : ∀ M : Nat, ∀ s : GoStr, s = rp ++ '.' :: natToDec M →
      decDigitsVal (s.drop (rp.length + 1)) = M := by
    intro M s hs
    have heq : s = (rp ++ ['.']) ++ natToDec M := by
      rw [hs]; simp
    have hlen : rp.length + 1 = (rp ++ ['.']).length := by simp
    rw [heq, hlen, List.drop_left]
    exact (natToDec_facts M).1
  set bad : List Nat :=
    used.map Int.toNat ++
      (c.issues.map fun i => decDigitsVal (i.id.drop (rp.length + 1))) ++
      (c.renames.map fun r => decDigitsVal (r.1.drop (rp.length + 1)))
    with hbad
  refine ⟨bad.foldr max 0 + 1, by omega, ?_, ?_, ?_⟩
  · intro hcon
    have hmm : ((bad.foldr max 0 + 1 : Nat) : Int).toNat ∈ used.map Int.toNat :=
      List.mem_map_of_mem Int.toNat hcon
    rw [Int.toNat_natCast] at hmm
    have : bad.foldr max 0 + 1 ≤ bad.foldr max 0 := by
      refine le_foldr_max bad _ ?_
      rw [hbad]
      exact List.mem_append_left _ (List.mem_append_left _ hmm)
    omega
  · cases hx : issueExistsB c (rp ++ '.' :: natToDec (bad.foldr max 0 + 1))
    · rfl
    · exfalso
      unfold issueExistsB at hx
      rw [List.any_eq_true] at hx
      obtain ⟨i, hi, hp⟩ := hx
      have hid : i.id = rp ++ '.' :: natToDec (bad.foldr max 0 + 1) := by
        simpa using hp
      have hv := hdropval _ _ hid
      have : bad.foldr max 0 + 1 ≤ bad.foldr max 0 := by
        refine le_foldr_max bad _ ?_
        rw [← hv, hbad]
        refine List.mem_append_left _ (List.mem_append_right _ ?_)
        exact List.mem_map_of_mem _ hi
      omega
  · by_cases hl : lookupRename c.renames
        (rp ++ '.' :: natToDec (bad.foldr max 0 + 1)) = []
    · exact hl
    · exfalso
      have hkey := mem_keys_of_lookupRename_ne _ _ hl
      rw [List.mem_map] at hkey
      obtain ⟨r, hr, hrid⟩ := hkey
      have hv := hdropval _ _ hrid
      have : bad.foldr max 0 + 1 ≤ bad.foldr max 0 := by
        refine le_foldr_max bad _ ?_
        rw [← hv, hbad]
        refine List.mem_append_right _ ?_
        exact List.mem_map_of_mem _ hr
      omega

/-- The search loop reaches a fresh suffix (or returns earlier, possibly
with a rename-resolution error), and any id it returns successfully is a
positive child suffix of the parent that is neither an issue row nor
effectively mapped in the renames table. -/
theorem nextChildLoop_reaches (c : Cache) (rp : GoStr) (used : List Int)
    (N : Nat) (htrim : trimSpace rp = rp) (hN1 : 0 < N)
    (hNused : (N : Int) ∉ used)
    (hNissues : issueExistsB c (rp ++ '.' :: natToDec N) = false)
    (hNren : lookupRename c.renames (rp ++ '.' :: natToDec N) = []) :
    ∀ sfx, 1 ≤ sfx → sfx ≤ N →
      ∃ res, nextChildLoop c rp used (N + 1 - sfx) sfx = some res ∧
        ∀ id, res = .ok id →
          ∃ M : Nat, 0 < M ∧ id = rp ++ '.' :: natToDec M ∧
            issueExistsB c id = false ∧ lookupRename c.renames id = [] := by
  have hava : issueIDAvailable c (rp ++ '.' :: natToDec N) = .ok true := by
    have hne : rp ++ '.' :: natToDec N ≠ [] := by simp
    have htrimc : trimSpace (rp ++ '.' :: natToDec N) = rp ++ '.' :: natToDec N := by
      refine trimSpace_append_of rp (natToDec N) htrim (natToDec_facts N).2.1 ?_
      intro ch hch
      exact isSpaceChar_eq_false_of_digit ch ((natToDec_facts N).2.2 ch hch)
    unfold issueIDAvailable
    rw [resolveIssueID_of_unmapped c.renames _ htrimc hne hNren]
    simp [hNissues]
  suffices H : ∀ d sfx, 1 ≤ sfx → sfx + d = N →
      ∃ res, nextChildLoop c rp used (d + 1) sfx = some res ∧
        ∀ id, res = .ok id →
          ∃ M : Nat, 0 < M ∧ id = rp ++ '.' :: natToDec M ∧
            issueExistsB c id = false ∧ lookupRename c.renames id = [] by
    intro sfx h1 h2
    have hf : N + 1 - sfx = (N - sfx) + 1 := by omega
    rw [hf]
    exact H (N - sfx) sfx h1 (by omega)
  intro d
  induction d with
  | zero =>
    intro sfx h1 h2
    have hsN : sfx = N := by omega
    subst hsN
    simp only [nextChildLoop]
    rw [if_neg hNused]
    rw [hava]
    refine ⟨.ok (rp ++ '.' :: natToDec sfx), rfl, ?_⟩
    intro id hid
    injection hid with hid2
    exact ⟨sfx, by omega, hid2.symm, hid2 ▸ hNissues, hid2 ▸ hNren⟩
  | succ d ih =>
    intro sfx h1 h2
    simp only [nextChildLoop]
    by_cases hu : (sfx : Int) ∈ used
    · rw [if_pos hu]
      exact ih (sfx + 1) (by omega) (by omega)
    · rw [if_neg hu]
      cases hav : issueIDAvailable c (rp ++ '.' :: natToDec sfx) with
      | error e =>
        exact ⟨.error e, rfl, fun id hid => absurd hid (by simp)⟩
      | ok b =>
        cases b with
        | true =>
          refine ⟨.ok (rp ++ '.' :: natToDec sfx), rfl, ?_⟩
          intro id hid
          injection hid with hid2
          obtain ⟨hx, hl⟩ := issueIDAvailable_true_facts c _ hav
          exact ⟨sfx, by omega, hid2.symm, hid2 ▸ hx, hid2 ▸ hl⟩
        | false =>
          exact ih (sfx + 1) (by omega) (by omega)

/-- Claim C10 (amended): for every finite cache state whose resolved
parent id is a trimmed string, the child-id allocator's search loop
terminates — there is a fuel bound within which it returns — and
whenever it returns successfully, the returned id is parent.N for a
positive N that is neither an issue row id nor effectively mapped as an
old id in the renames table. -/
theorem C10_NextChildIssueID_terminates_with_fresh_suffix :
    ∀ (c : Cache) (parentID rp : GoStr),
      resolveIssueID c.renames parentID = .ok rp →
      issueExistsB c rp = true →
      trimSpace rp = rp →
      ∃ fuel res, NextChildIssueID fuel c parentID = some res ∧
        ∀ id, res = .ok id →
          ∃ N : Nat, 0 < N ∧ id = rp ++ '.' :: natToDec N ∧
            issueExistsB c id = false ∧ lookupRename c.renames id = [] := by
  intro c parentID rp hres hex htrim
  obtain ⟨N, hN1, hNused, hNissues, hNren⟩ :=
    exists_fresh_suffix c rp (loadChildSuffixes c rp)
  obtain ⟨res, hloop, hprops⟩ :=
    nextChildLoop_reaches c rp (loadChildSuffixes c rp) N htrim hN1 hNused
      hNissues hNren 1 le_rfl (by omega)
  refine ⟨N + 1 - 1, res, ?_, hprops⟩
  unfold NextChildIssueID ensureIssueExists
  rw [hres]
  simp only [hex, if_true]
  exact hloop

/-- The parent issue used by the C10 scenarios. -/
def issueC10 : Issue :=
  { id := gs r"pb-p", title := gs r"t", description := [],
    issueType := gs r"task", status := StatusOpen, priority := 2,
    createdAt := [], updatedAt := [], closedAt := [] }

/-- A cache whose renames table maps the first candidate child id to
itself — a rename cycle reachable from pb-p.1. -/
def cacheC10cycle : Cache :=
  { issues := [issueC10], deps := [],
    renames := [(gs r"pb-p.1", gs r"pb-p.1")] }

/-- The decimal rendering of one. -/
theorem natToDec_one : natToDec 1 = gs r"1" := by
  rw [natToDec_step]
  rfl

/-- Claim C10 — counterexample.  On a finite cache state with an existing
parent whose renames table contains a self-mapping for pb-p.1, the
allocator returns a rename-cycle error rather than parent.N: the loop's
first availability check resolves pb-p.1, detects the cycle, and the
error is returned (shown at two fuel values; the loop body runs the same
path regardless of remaining fuel). -/
theorem C10_counterexample_rename_cycle_error :
    NextChildIssueID 1 cacheC10cycle (gs r"pb-p") =
      some (.error r"rename cycle detected") ∧
    NextChildIssueID 9 cacheC10cycle (gs r"pb-p") =
      some (.error r"rename cycle detected") := by
  constructor <;>
    simp [NextChildIssueID, resolveIssueID, resolveLoop, lookupRename,
      ensureIssueExists, issueExistsB, nextChildLoop, loadChildSuffixes,
      issueIDAvailable, natToDec_one, trimSpace, isSpaceChar, cacheC10cycle,
      issueC10, gs]

/-- A cache with just the parent issue and empty deps and renames. -/
def cacheC10plain : Cache :=
  { issues := [issueC10], deps := [], renames := [] }

/-- Claim C10 — witness applying the amended theorem to the plain cache:
the search terminates and any success is a fresh positive child
suffix. -/
theorem C10_witness :
    ∃ fuel res, NextChildIssueID fuel cacheC10plain (gs r"pb-p") = some res ∧
      ∀ id, res = .ok id →
        ∃ N : Nat, 0 < N ∧ id = gs r"pb-p" ++ '.' :: natToDec N ∧
          issueExistsB cacheC10plain id = false ∧
          lookupRename cacheC10plain.renames id = [] :=
  C10_NextChildIssueID_terminates_with_fresh_suffix cacheC10plain
    (gs r"pb-p") (gs r"pb-p")
    (by
      simp [resolveIssueID, resolveLoop, lookupRename, trimSpace,
        isSpaceChar, cacheC10plain, gs])
    (by decide) (by decide)
